import Mathlib

/-!
Verification development for a two-asset (gold vs equity) momentum rotation
backtester.  The Python sources are embedded shallowly:

* `strategies/rotation_strategy.py` — configuration, price alignment,
  momentum signals, execution lag, fees, and performance metrics;
* `src/data_fetcher.py` — price-frame normalization and the gold-futures
  fetch pipeline with its provider-fallback chain and on-disk cache.

Modelling conventions:

* Trading dates are day serial numbers (`Nat`).  The weekday convention is
  `d % 7 = 4` for Friday.  Calendar months of the pandas `resample("M")`
  call are modelled by a uniform 30-day civil calendar (`d % 30 = 29` is a
  month end): only the partition of days into consecutive months and the
  month-end labelling matter for the resample semantics, not the varying
  Gregorian month lengths.
* Prices and returns are exact rationals (`ℚ`); the float-valued
  performance analyzer is modelled over `ℝ` with `Option` encoding IEEE
  NaN results.
* A pandas `Series`/`DataFrame` column is a `List`; a date-indexed frame is
  a `List (Nat × _)` association list (pandas itself requires the index to
  be unique and sorted for the `reindex`/`resample` calls used here, which
  appears as a `Pairwise (· < ·)` hypothesis where relevant).
-/

namespace VscBacktest

/-- `RotationConfig` from `rotation_strategy.py`: a plain dataclass with
defaults and, notably, no validation of any field at construction time. -/
structure RotationConfig where
  lookback_days : Int := 60
  rebalance : String := "weekly"
  fee_bps : ℚ := 5
  cash_symbol : String := "CASH"
  deriving Repr, DecidableEq

/-- One row of the frame returned by `generate_signals` (columns `signal`,
`position`, `gold_ret`, `equity_ret`, `portfolio_ret`, on a date index). -/
structure SignalRecord where
  date : Nat
  signal : String
  position : String
  gold_ret : ℚ
  equity_ret : ℚ
  portfolio_ret : ℚ
  deriving Repr, DecidableEq

/-- First-match association lookup on a date-indexed list (the semantics of
indexing a pandas series by label; pandas additionally insists the index is
unique wherever `reindex` is used). -/
def alookup {α : Type} : List (Nat × α) → Nat → Option α
  | [], _ => none
  | (k, v) :: rest, d => if k = d then some v else alookup rest d

/-- `Series.pct_change(k)`: entry `i` is `x[i]/x[i-k] - 1`, `NaN` (here
`none`) when `i - k` falls outside the series. -/
def pct_change (k : Int) (xs : List ℚ) : List (Option ℚ) :=
  (List.range xs.length).map fun (i : Nat) =>
    if 0 ≤ (i : Int) - k ∧ (i : Int) - k < (xs.length : Int) then
      some (xs.getD i 0 / xs.getD ((i : Int) - k).toNat 0 - 1)
    else none

/-- `prices.pct_change().fillna(0.0)`: one-day returns with the first day
mapped to `0`. -/
def dailyRet (xs : List ℚ) : List ℚ :=
  (pct_change 1 xs).map (·.getD 0)

/-- The smallest day `≥ d` whose residue mod `step` is `offset`
(`step > 0`, `offset < step`). -/
def nextOnOrAfter (offset step d : Nat) : Nat :=
  d + (offset + step - d % step) % step

/-- The Friday on or after `d` (Friday is `d % 7 = 4`): the right bin edge
of the pandas `resample("W-FRI")` bin containing `d`. -/
def friOnOrAfter (d : Nat) : Nat := nextOnOrAfter 4 7 d

/-- The month-end day on or after `d` in the uniform 30-day calendar: the
right bin edge of the `resample("M")` bin containing `d`. -/
def monthEndOnOrAfter (d : Nat) : Nat := nextOnOrAfter 29 30 d

/-- Arithmetic label sequence `a, a+step, …` up to `b` (the index that a
pandas resample produces: one label per bin from the bin of the first
observation to the bin of the last, empty bins included). -/
def labelSeq (a b step : Nat) : List Nat :=
  (List.range ((b - a) / step + 1)).map fun k => a + step * k

/-- `_rebalance_index` from `rotation_strategy.py`: every date for
`"daily"`; the `resample("W-FRI")` label index (all Fridays covering the
observation span) for `"weekly"`; the `resample("M")` label index (all
month ends covering the span) for `"monthly"`; otherwise the
`ValueError("Unsupported rebalance mode: …")` that the Python raises. -/
def rebalance_index (idx : List Nat) (mode : String) : Except String (List Nat) :=
  if mode = "daily" then .ok idx
  else if mode = "weekly" then
    .ok (match idx.head?, idx.getLast? with
      | some f, some l => labelSeq (friOnOrAfter f) (friOnOrAfter l) 7
      | _, _ => [])
  else if mode = "monthly" then
    .ok (match idx.head?, idx.getLast? with
      | some f, some l => labelSeq (monthEndOnOrAfter f) (monthEndOnOrAfter l) 30
      | _, _ => [])
  else .error ("Unsupported rebalance mode: " ++ mode)

/-- Row-wise pairing of the two momentum columns; a row survives the later
`dropna()` only when both entries are present. -/
def optPair : Option ℚ → Option ℚ → Option (ℚ × ℚ)
  | some a, some b => some (a, b)
  | _, _ => none

/-- The momentum frame `prices.pct_change(cfg.lookback_days)` keyed by
date, with `none` for rows where either column is `NaN`. -/
def momTableOf (P : List (Nat × ℚ × ℚ)) (cfg : RotationConfig) :
    List (Nat × Option (ℚ × ℚ)) :=
  (P.map (·.1)).zip
    (List.zipWith optPair
      (pct_change cfg.lookback_days (P.map (·.2.1)))
      (pct_change cfg.lookback_days (P.map (·.2.2))))

/-- `momentum.reindex(rebalance_dates).dropna()`: look each rebalance label
up in the momentum frame and keep the rows that exist and are `NaN`-free. -/
def decisionTable (momT : List (Nat × Option (ℚ × ℚ))) (rdates : List Nat) :
    List (Nat × ℚ × ℚ) :=
  rdates.filterMap fun d => (alookup momT d).bind fun om => om.map fun m => (d, m)

/-- The selection at one decision row: `idxmax(axis=1)` over the column
order `[GOLD, EQUITY]` (first maximum wins, so ties go to GOLD), then the
`max(axis=1) <= 0` rows are overwritten with `cash_symbol`. -/
def pickRow (cfg : RotationConfig) (gm em : ℚ) : String :=
  let raw := if em ≤ gm then "GOLD" else "EQUITY"
  if max gm em ≤ 0 then cfg.cash_symbol else raw

/-- The `position_raw` series of `generate_signals`, keyed by decision
date. -/
def picksOf (cfg : RotationConfig) (momT : List (Nat × Option (ℚ × ℚ)))
    (rdates : List Nat) : List (Nat × String) :=
  (decisionTable momT rdates).map fun p => (p.1, pickRow cfg p.2.1 p.2.2)

/-- `Series.ffill()` on an option-valued list, with `carry` the value
propagated into leading holes (`none` at the start models `NaN`). -/
def ffillAux {α : Type} (carry : Option α) : List (Option α) → List (Option α)
  | [] => []
  | x :: rest =>
    match x with
    | some v => some v :: ffillAux (some v) rest
    | none => carry :: ffillAux carry rest

/-- `pick_df["position_raw"].reindex(daily_ret.index).ffill().fillna(cash)`:
the decision in force on each trading day (decided with that day's close). -/
def signalOf (cfg : RotationConfig) (idx : List Nat)
    (picks : List (Nat × String)) : List String :=
  (ffillAux none (idx.map fun d => alookup picks d)).map (·.getD cfg.cash_symbol)

/-- `Series.shift(1).fillna(c)` on a list. -/
def shift1 {α : Type} (c : α) : List α → List α
  | [] => []
  | x :: xs => c :: (x :: xs).dropLast

/-- `turnover * (fee_bps / 10000)`: the one-way fee charged on every day
whose executed position differs from the previous day's. -/
def feeList (cfg : RotationConfig) (exec prev : List String) : List ℚ :=
  List.zipWith (fun a b => if a ≠ b then cfg.fee_bps / 10000 else 0) exec prev

/-- `alloc_gold * gold_ret + alloc_equity * equity_ret - fee`, element-wise
over the four series. -/
def portfolio4 : List String → List ℚ → List ℚ → List ℚ → List ℚ
  | e :: es, g :: gs, r :: rs, f :: fs =>
    ((if e = "GOLD" then 1 else 0) * g + (if e = "EQUITY" then 1 else 0) * r - f)
      :: portfolio4 es gs rs fs
  | _, _, _, _ => []

/-- Assembling the output frame of `generate_signals` from its column
series. -/
def zipRecords : List Nat → List String → List String → List ℚ → List ℚ →
    List ℚ → List SignalRecord
  | d :: ds, s :: ss, e :: es, g :: gs, r :: rs, p :: ps =>
    ⟨d, s, e, g, r, p⟩ :: zipRecords ds ss es gs rs ps
  | _, _, _, _, _, _ => []

/-- The `signal` column of `generate_signals` (the decision in force, made
with the same day's close). -/
def sigListOf (cfg : RotationConfig) (P : List (Nat × ℚ × ℚ))
    (rdates : List Nat) : List String :=
  signalOf cfg (P.map (·.1)) (picksOf cfg (momTableOf P cfg) rdates)

/-- The `position` column: yesterday's signal (one-day execution lag),
cash on the first day. -/
def execListOf (cfg : RotationConfig) (P : List (Nat × ℚ × ℚ))
    (rdates : List Nat) : List String :=
  shift1 cfg.cash_symbol (sigListOf cfg P rdates)

/-- The per-day fee series. -/
def feeListOf (cfg : RotationConfig) (P : List (Nat × ℚ × ℚ))
    (rdates : List Nat) : List ℚ :=
  feeList cfg (execListOf cfg P rdates)
    (shift1 cfg.cash_symbol (execListOf cfg P rdates))

/-- The output frame of `generate_signals` given the rebalance labels. -/
def recordsOf (cfg : RotationConfig) (P : List (Nat × ℚ × ℚ))
    (rdates : List Nat) : List SignalRecord :=
  zipRecords (P.map (·.1)) (sigListOf cfg P rdates) (execListOf cfg P rdates)
    (dailyRet (P.map (·.2.1))) (dailyRet (P.map (·.2.2)))
    (portfolio4 (execListOf cfg P rdates) (dailyRet (P.map (·.2.1)))
      (dailyRet (P.map (·.2.2))) (feeListOf cfg P rdates))

/-- `generate_signals` from `rotation_strategy.py`, applied to an already
aligned price table (one row per date: gold close, equity close).  The only
error path is the unsupported-rebalance `ValueError` out of
`_rebalance_index`. -/
def generateSignalsAligned (P : List (Nat × ℚ × ℚ)) (cfg : RotationConfig) :
    Except String (List SignalRecord) :=
  match rebalance_index (P.map (·.1)) cfg.rebalance with
  | .error e => .error e
  | .ok rdates => .ok (recordsOf cfg P rdates)

/-- Stable insertion into a date-sorted list (placing the new element
before existing elements of equal key keeps the sort stable). -/
def insertOn {α κ : Type} [LinearOrder κ] (key : α → κ) (x : α) : List α → List α
  | [] => [x]
  | y :: ys => if key x ≤ key y then x :: y :: ys else y :: insertOn key x ys

/-- Sort by an ordered key (the model of pandas `sort_values`
/`sort_index`), implemented as a stable insertion sort.  pandas' default
`kind="quicksort"` is NOT stable, so the relative order of equal-key rows
after a real `sort_values` is unspecified; this model fixes one tie order,
and every theorem below involving possibly-equal keys is therefore stated
tie-order-insensitively (via a permutation, or under a distinct-key
hypothesis under which any correct sort is the identity). -/
def sortOn {α κ : Type} [LinearOrder κ] (key : α → κ) : List α → List α
  | [] => []
  | x :: xs => insertOn key x (sortOn key xs)

/-- `_prepare_prices` from `rotation_strategy.py`: inner-join of the two
close series on their date indexes (`pd.concat(..., join="inner")`),
sorted by date.  The `dropna()` is a no-op on total rational closes. -/
def prepare_prices (gold equity : List (Nat × ℚ)) : List (Nat × ℚ × ℚ) :=
  sortOn (·.1)
    (gold.filterMap fun p => (alookup equity p.1).map fun ce => (p.1, p.2, ce))

/-- `generate_signals` on raw per-asset close series: align, then run the
signal engine. -/
def generate_signals (gold equity : List (Nat × ℚ)) (cfg : RotationConfig) :
    Except String (List SignalRecord) :=
  generateSignalsAligned (prepare_prices gold equity) cfg

/-- Collapse adjacent duplicates of a sorted list (so that a sorted list
of dates denotes a set). -/
def dedupAdj : List Nat → List Nat
  | [] => []
  | [x] => [x]
  | x :: y :: r => if x = y then dedupAdj (y :: r) else x :: dedupAdj (y :: r)

/-- The decision-date set as the specification words it (stated for
comparison with `rebalance_index`): every date for `"daily"`; the last
observation on or before each Friday for `"weekly"`; the last observation
of each calendar month for `"monthly"`. -/
def spec_rebalance_dates (idx : List Nat) (mode : String) : List Nat :=
  if mode = "daily" then idx
  else if mode = "weekly" then
    match idx.head?, idx.getLast? with
    | some f, some l =>
      dedupAdj ((labelSeq (friOnOrAfter f) (friOnOrAfter l) 7).filterMap
        fun fri => (idx.filter fun d => decide (d ≤ fri)).getLast?)
    | _, _ => []
  else if mode = "monthly" then
    match idx.head?, idx.getLast? with
    | some f, some l =>
      dedupAdj ((labelSeq (monthEndOnOrAfter f) (monthEndOnOrAfter l) 30).filterMap
        fun me => (idx.filter fun d => decide (d ≤ me)).getLast?)
    | _, _ => []
  else []

/-- Forward-fill lookup: the close of the latest observation on or before
`d` in a date-sorted close series. -/
def lastOnOrBefore (l : List (Nat × ℚ)) (d : Nat) : Option ℚ :=
  ((l.filter fun p => decide (p.1 ≤ d)).getLast?).map (·.2)

/-- The alignment policy the specification claims as the default (stated
for comparison with `prepare_prices`): union of the two date sets with
forward-fill of the laggard series, rows still missing a value dropped. -/
def prepare_prices_union_ffill (gold equity : List (Nat × ℚ)) :
    List (Nat × ℚ × ℚ) :=
  (dedupAdj (sortOn id (gold.map (·.1) ++ equity.map (·.1)))).filterMap fun d =>
    match lastOnOrBefore gold d, lastOnOrBefore equity d with
    | some a, some b => some (d, a, b)
    | _, _ => none

/-! ### Data fetcher (`src/data_fetcher.py`) -/

/-- A raw provider row after the column-alias renaming of
`_clean_price_dataframe`: the date cell is a timestamp (possibly carrying a
time-of-day fraction, removed by `.dt.normalize()`), the numeric cells are
`none` when missing or unparseable (`pd.to_numeric(errors="coerce")`). -/
structure RawRow where
  date : ℚ
  openV : Option ℚ
  high : Option ℚ
  low : Option ℚ
  close : Option ℚ
  volume : Option ℚ
  deriving Repr, DecidableEq

/-- A raw provider table: its rows plus whether a `Volume` column resolved
at all (when absent the code synthesizes a zero column). -/
structure RawTable where
  rows : List RawRow
  hasVolumeCol : Bool
  deriving Repr, DecidableEq

/-- One row of a normalized price series (`Date` truncated to a calendar
day, OHLC present and numeric, `Volume` possibly `NaN` since the `dropna`
only covers OHLC, plus the `Symbol` tag). -/
structure CleanRow where
  date : Int
  openV : ℚ
  high : ℚ
  low : ℚ
  close : ℚ
  volume : Option ℚ
  symbol : String
  deriving Repr, DecidableEq

/-- Error taxonomy of the fetch pipeline: `emptyData` is the
`ValueError("No data returned for symbol …")` raised by
`_clean_price_dataframe`; `dataUnavailable` is the terminal
`RuntimeError` of `fetch_gold_futures`, carrying the last yfinance
exception message when one was observed. -/
inductive FetchError where
  | emptyData : String → FetchError
  | dataUnavailable : Option String → FetchError
  deriving Repr, DecidableEq

/-- Per-row normalization: keep the row iff all of open/high/low/close are
present, truncating the date to a day and defaulting volume to `0` when the
column was absent. -/
def rowClean (hasVol : Bool) (symbol : String) (r : RawRow) : Option CleanRow :=
  match r.openV, r.high, r.low, r.close with
  | some o, some h, some l, some c =>
    some ⟨⌊r.date⌋, o, h, l, c, if hasVol then r.volume else some 0, symbol⟩
  | _, _, _, _ => none

/-- `_clean_price_dataframe`: raise on an empty input frame, then coerce,
drop rows with missing OHLC, sort ascending by date (duplicates kept — the
code has no deduplication step) and tag the symbol. -/
def clean_price_dataframe (t : RawTable) (symbol : String) :
    Except FetchError (List CleanRow) :=
  if t.rows.isEmpty then .error (.emptyData symbol)
  else .ok (sortOn (·.date) (t.rows.filterMap (rowClean t.hasVolumeCol symbol)))

/-- One normalized row re-read as a raw row: every cell present, the date
already day-aligned. -/
def cleanToRawRow (r : CleanRow) : RawRow :=
  ⟨(r.date : ℚ), some r.openV, some r.high, some r.low, some r.close, r.volume⟩

/-- Re-reading a normalized series as a raw frame (this is what feeding the
output of `_clean_price_dataframe` back into it amounts to). -/
def cleanToRaw (t : List CleanRow) : RawTable :=
  ⟨t.map cleanToRawRow, true⟩

/-- `_filter_date_range`: keep the rows with `start ≤ Date` and, when an
end date is given, `Date ≤ end`. -/
def filter_date_range (t : List CleanRow) (start : Int) (endOpt : Option Int) :
    List CleanRow :=
  t.filter fun r => decide (start ≤ r.date) && endOpt.all fun e => decide (r.date ≤ e)

/-- The upstream world a single `fetch_gold_futures` call sees: the cache
file contents (if one exists) and the response of each provider attempt, in
order.  `Except.error` is a raised exception, `Except.ok` a returned frame. -/
structure GoldFetchEnv where
  cache : Option RawTable
  hasAkAttr : Bool
  akResults : List (Except String (Option RawTable))
  stooqResult : Except String RawTable
  yfAttempts : List (Except String RawTable)
  deriving Repr

/-- The candidate loop of `_fetch_gold_from_akshare`: each candidate's
exception, `None`, empty frame, normalization failure, or empty range
filter makes the loop continue; the first non-empty filtered result is
returned. -/
def akLoop (start : Int) (endOpt : Option Int) :
    List (Except String (Option RawTable)) → Option (List CleanRow)
  | [] => none
  | .error _ :: rest => akLoop start endOpt rest
  | .ok none :: rest => akLoop start endOpt rest
  | .ok (some raw) :: rest =>
    if raw.rows.isEmpty then akLoop start endOpt rest
    else
      match clean_price_dataframe raw "GC=F" with
      | .error _ => akLoop start endOpt rest
      | .ok c =>
        let f := filter_date_range c start endOpt
        if f.isEmpty then akLoop start endOpt rest else some f

/-- `_fetch_gold_from_akshare`: `None` when akshare lacks the API, else the
candidate loop. -/
def fetch_gold_from_akshare (env : GoldFetchEnv) (start : Int)
    (endOpt : Option Int) : Option (List CleanRow) :=
  if env.hasAkAttr then akLoop start endOpt env.akResults else none

/-- `_fetch_gold_from_stooq`: any exception or empty/unnormalizable frame
yields `None`; otherwise the range-filtered series if non-empty. -/
def fetch_gold_from_stooq (env : GoldFetchEnv) (start : Int)
    (endOpt : Option Int) : Option (List CleanRow) :=
  match env.stooqResult with
  | .error _ => none
  | .ok raw =>
    if raw.rows.isEmpty then none
    else
      match clean_price_dataframe raw "XAUUSD" with
      | .error _ => none
      | .ok c =>
        let f := filter_date_range c start endOpt
        if f.isEmpty then none else some f

/-- The yfinance retry loop: exceptions update `last_exc` and leave the
frame empty; the loop stops at the first non-empty frame.  Returns the
final frame (if any) and the last observed exception. -/
def yfLoop : List (Except String RawTable) → Option String →
    Option RawTable × Option String
  | [], lastExc => (none, lastExc)
  | .error e :: rest, _ => yfLoop rest (some e)
  | .ok raw :: rest, lastExc =>
    if raw.rows.isEmpty then yfLoop rest lastExc else (some raw, lastExc)

/-- `fetch_gold_futures`: cache short-circuit, then the
akshare → stooq → yfinance fallback chain, then last-resort cache reuse,
then the terminal `RuntimeError` carrying the last yfinance error. -/
def fetch_gold_futures (env : GoldFetchEnv) (start : Int) (endOpt : Option Int)
    (useCache : Bool) : Except FetchError (List CleanRow) :=
  let cacheStep : Option (Except FetchError (List CleanRow)) :=
    match useCache, env.cache with
    | true, some raw =>
      match clean_price_dataframe raw "GC=F" with
      | .error e => some (.error e)
      | .ok c =>
        let s := filter_date_range c start endOpt
        if s.isEmpty then none else some (.ok s)
    | _, _ => none
  match cacheStep with
  | some r => r
  | none =>
    match fetch_gold_from_akshare env start endOpt with
    | some df => .ok df
    | none =>
      match fetch_gold_from_stooq env start endOpt with
      | some df => .ok df
      | none =>
        match yfLoop env.yfAttempts none with
        | (some raw, _) => clean_price_dataframe raw "GC=F"
        | (none, lastExc) =>
          match useCache, env.cache with
          | true, some raw =>
            match clean_price_dataframe raw "GC=F" with
            | .error e => .error e
            | .ok c =>
              let s := filter_date_range c start endOpt
              if s.isEmpty then .error (.dataUnavailable lastExc) else .ok s
          | _, _ => .error (.dataUnavailable lastExc)

/-! ### Performance analyzer (`performance_summary`) -/

/-- The metrics dictionary of `performance_summary`.  `Option ℝ` encodes a
float that may be IEEE `NaN` (`none`): `cagr` when no time elapses, `vol`
and `sharpe` through the sample standard deviation. -/
structure PerformanceSummary where
  cagr : Option ℝ
  vol : Option ℝ
  sharpe : Option ℝ
  max_drawdown : ℝ
  last_value : ℝ

/-- Arithmetic mean of a list of reals (`Series.mean()`). -/
noncomputable def listMean (xs : List ℝ) : ℝ := xs.sum / xs.length

/-- `Series.std()`: the sample standard deviation (`ddof = 1`), `NaN`
(`none`) on fewer than two observations. -/
noncomputable def sampleStd (xs : List ℝ) : Option ℝ :=
  if xs.length < 2 then none
  else some (Real.sqrt ((xs.map fun x => (x - listMean xs) ^ 2).sum / (xs.length - 1)))

/-- `(1 + daily_ret).cumprod()`. -/
noncomputable def cumprodList (xs : List ℝ) : List ℝ :=
  (xs.scanl (fun acc r => acc * (1 + r)) 1).tail

/-- Helper for the running maximum: `c` is the maximum seen so far. -/
noncomputable def runMaxAux (c : ℝ) : List ℝ → List ℝ
  | [] => []
  | x :: xs => max c x :: runMaxAux (max c x) xs

/-- `Series.cummax()`. -/
noncomputable def runningMax : List ℝ → List ℝ
  | [] => []
  | x :: xs => x :: runMaxAux x xs

/-- `Series.min()` of a non-empty list (`0` on the empty list, unused). -/
noncomputable def listMin : List ℝ → ℝ
  | [] => 0
  | x :: xs => xs.foldl min x

/-- `performance_summary` from `rotation_strategy.py` on a date-indexed
daily return series; `none` is the empty dict returned for empty input. -/
noncomputable def performance_summary (returns : List (Nat × ℝ)) :
    Option PerformanceSummary :=
  match returns with
  | [] => none
  | _ :: _ =>
    let vals := returns.map Prod.snd
    let ds := returns.map Prod.fst
    let curve := cumprodList vals
    let totalDays : Int := (ds.getLastD 0 : Int) - (ds.headD 0 : Int)
    let years : ℝ := if 0 < totalDays then (totalDays : ℝ) / 365.25 else 0
    let lastV := curve.getLastD 1
    some
      { cagr := if 0 < years then some (lastV ^ (1 / years : ℝ) - 1) else none
        vol := (sampleStd vals).map fun s => s * Real.sqrt 252
        sharpe :=
          match sampleStd vals with
          | some s => if s ≠ 0 then some (listMean vals / s * Real.sqrt 252) else none
          | none => none
        max_drawdown := listMin (List.zipWith (fun c m => c / m - 1) curve (runningMax curve))
        last_value := lastV }

/-- The Boolean "is this date a resample bin label" test per rebalance
mode: every date for `"daily"`, Fridays for `"weekly"`, month ends for
`"monthly"` (and `false` for unsupported modes, which never reach it). -/
def rebalPred (mode : String) (d : Nat) : Bool :=
  if mode = "daily" then true
  else if mode = "weekly" then d % 7 == 4
  else if mode = "monthly" then d % 30 == 29
  else false

/-- A cache file holding one valid row on day 5. -/
def goldCacheTable : RawTable :=
  ⟨[⟨5, some 1, some 2, some 1, some 2, some 10⟩], true⟩

/-- An upstream world in which every provider yields no data (akshare
raises on each candidate, stooq raises, yfinance returns an empty frame
then raises twice) while a usable cache file exists. -/
def goldExhaustEnv : GoldFetchEnv :=
  ⟨some goldCacheTable, true,
   [.error "ak boom", .error "ak boom 2", .error "ak boom 3"],
   .error "stooq down",
   [.ok ⟨[], true⟩, .error "rate limited", .error "rate limited again"]⟩

/-! ### Lemmas about the list primitives -/

theorem alookup_mem {α : Type} {l : List (Nat × α)} {k : Nat} {v : α}
    (h : alookup l k = some v) : (k, v) ∈ l := by
  induction l with
  | nil => simp [alookup] at h
  | cons p rest ih =>
    obtain ⟨k0, v0⟩ := p
    by_cases hk : k0 = k
    · subst hk
      simp only [alookup, if_pos rfl] at h
      injection h with h
      subst h
      exact List.mem_cons_self _ _
    · simp only [alookup, if_neg hk] at h
      exact List.mem_cons_of_mem _ (ih h)

theorem alookup_of_mem {α : Type} {l : List (Nat × α)} {k : Nat} {v : α}
    (hu : (l.map Prod.fst).Pairwise (· ≠ ·)) (hm : (k, v) ∈ l) :
    alookup l k = some v := by
  induction l with
  | nil => cases hm
  | cons p rest ih =>
    obtain ⟨k0, v0⟩ := p
    have hu0 : (k0 :: rest.map Prod.fst).Pairwise (· ≠ ·) := by simpa using hu
    have hu' := List.pairwise_cons.mp hu0
    rcases List.mem_cons.mp hm with h | h
    · injection h with h1 h2
      subst h1; subst h2
      simp [alookup]
    · have hne : k0 ≠ k := by
        intro hkeq
        subst hkeq
        exact hu'.1 k0 (List.mem_map_of_mem Prod.fst h) rfl
      simp only [alookup, if_neg hne]
      exact ih hu'.2 h

theorem alookup_isSome_iff {α : Type} {l : List (Nat × α)} {k : Nat} :
    (alookup l k).isSome = true ↔ k ∈ l.map Prod.fst := by
  induction l with
  | nil => simp [alookup]
  | cons p rest ih =>
    obtain ⟨k0, v0⟩ := p
    by_cases hk : k0 = k
    · subst hk; simp [alookup]
    · simp [alookup, hk, ih, Ne.symm hk]

theorem alookup_rel {α β : Type} (Rv : Nat → α → β → Prop)
    {l : List (Nat × α)} {l2 : List (Nat × β)} (k : Nat)
    (h : List.Forall₂ (fun p q => p.1 = q.1 ∧ Rv p.1 p.2 q.2) l l2) :
    Option.Rel (Rv k) (alookup l k) (alookup l2 k) := by
  induction h with
  | nil => exact Option.Rel.none
  | @cons p q l1 l2' hpq _ ih =>
    obtain ⟨k0, a⟩ := p
    obtain ⟨k0', b⟩ := q
    obtain ⟨hk, hv⟩ := hpq
    simp only at hk hv
    subst hk
    by_cases hfst : k0 = k
    · subst hfst
      simp only [alookup, if_pos rfl]
      exact Option.Rel.some hv
    · simp only [alookup, if_neg hfst]
      exact ih

theorem forall₂_filterMap {α β γ δ : Type} {R : α → β → Prop} {S : γ → δ → Prop}
    {f : α → Option γ} {g : β → Option δ} {l : List α} {l2 : List β}
    (h : List.Forall₂ R l l2)
    (hfg : ∀ a b, R a b → Option.Rel S (f a) (g b)) :
    List.Forall₂ S (l.filterMap f) (l2.filterMap g) := by
  induction h with
  | nil => simp [List.filterMap_nil]
  | @cons a b l1 l2' hab _ ih =>
    have hR := hfg a b hab
    simp only [List.filterMap_cons]
    cases hfa : f a with
    | none =>
      cases hgb : g b with
      | none => exact ih
      | some d => rw [hfa, hgb] at hR; cases hR
    | some c =>
      cases hgb : g b with
      | none => rw [hfa, hgb] at hR; cases hR
      | some d =>
        rw [hfa, hgb] at hR
        cases hR with
        | some hS => exact List.Forall₂.cons hS ih

theorem insertOn_perm {α κ : Type} [LinearOrder κ] (key : α → κ) (x : α)
    (l : List α) : (insertOn key x l).Perm (x :: l) := by
  induction l with
  | nil => exact List.Perm.refl _
  | cons y ys ih =>
    by_cases h : key x ≤ key y
    · simp [insertOn, h]
    · simp only [insertOn, if_neg h]
      exact (ih.cons y).trans (List.Perm.swap x y ys)

theorem sortOn_perm {α κ : Type} [LinearOrder κ] (key : α → κ) (l : List α) :
    (sortOn key l).Perm l := by
  induction l with
  | nil => exact List.Perm.refl _
  | cons x xs ih => exact (insertOn_perm key x (sortOn key xs)).trans (ih.cons x)

theorem insertOn_sorted {α κ : Type} [LinearOrder κ] {key : α → κ} {l : List α}
    (x : α) (h : l.Pairwise (fun a b => key a ≤ key b)) :
    (insertOn key x l).Pairwise (fun a b => key a ≤ key b) := by
  induction l with
  | nil => simp [insertOn]
  | cons y ys ih =>
    have h' := List.pairwise_cons.mp h
    by_cases hxy : key x ≤ key y
    · rw [insertOn, if_pos hxy]
      refine List.pairwise_cons.mpr ⟨?_, h⟩
      intro z hz
      rcases List.mem_cons.mp hz with rfl | hz
      · exact hxy
      · exact le_trans hxy (h'.1 z hz)
    · rw [insertOn, if_neg hxy]
      refine List.pairwise_cons.mpr ⟨?_, ih h'.2⟩
      intro z hz
      rcases List.mem_cons.mp ((insertOn_perm key x ys).mem_iff.mp hz) with rfl | h0
      · exact le_of_lt (lt_of_not_le hxy)
      · exact h'.1 z h0

theorem sortOn_sorted {α κ : Type} [LinearOrder κ] (key : α → κ) (l : List α) :
    (sortOn key l).Pairwise (fun a b => key a ≤ key b) := by
  induction l with
  | nil => simp [sortOn]
  | cons x xs ih => exact insertOn_sorted x ih

theorem sortOn_eq_self {α κ : Type} [LinearOrder κ] {key : α → κ} {l : List α}
    (h : l.Pairwise (fun a b => key a ≤ key b)) : sortOn key l = l := by
  induction l with
  | nil => rfl
  | cons x xs ih =>
    have h' := List.pairwise_cons.mp h
    have htail : sortOn key xs = xs := ih h'.2
    simp only [sortOn, htail]
    cases xs with
    | nil => rfl
    | cons y ys => simp [insertOn, h'.1 y (List.mem_cons_self y ys)]

theorem pairwise_ne_of_lt {l : List Nat} (h : l.Pairwise (· < ·)) :
    l.Pairwise (· ≠ ·) :=
  h.imp Nat.ne_of_lt

theorem sorted_head?_le {idx : List Nat} (h : idx.Pairwise (· < ·)) {f : Nat}
    (hf : idx.head? = some f) : ∀ x ∈ idx, f ≤ x := by
  cases idx with
  | nil => cases hf
  | cons y ys =>
    injection hf with hf
    subst hf
    intro x hx
    rcases List.mem_cons.mp hx with rfl | hx
    · exact le_refl _
    · exact le_of_lt ((List.pairwise_cons.mp h).1 x hx)

theorem sorted_le_getLast? {idx : List Nat} (h : idx.Pairwise (· < ·)) {l : Nat}
    (hl : idx.getLast? = some l) : ∀ x ∈ idx, x ≤ l := by
  induction idx with
  | nil => intro x hx; cases hx
  | cons y ys ih =>
    intro x hx
    have h' := List.pairwise_cons.mp h
    cases ys with
    | nil =>
      rcases List.mem_cons.mp hx with rfl | hx
      · injection hl with hl
        subst hl
        exact le_refl _
      · cases hx
    | cons z zs =>
      have hl' : (z :: zs).getLast? = some l := by
        rw [← hl]
        exact List.getLast?_cons_cons.symm
      rcases List.mem_cons.mp hx with rfl | hx
      · exact le_trans (le_of_lt (h'.1 z (List.mem_cons_self z zs)))
          (ih h'.2 hl' z (List.mem_cons_self z zs))
      · exact ih h'.2 hl' x hx

/-! ### Label-sequence arithmetic -/

theorem friOnOrAfter_mod (d : Nat) : friOnOrAfter d % 7 = 4 := by
  simp only [friOnOrAfter, nextOnOrAfter]
  omega

theorem friOnOrAfter_ge (d : Nat) : d ≤ friOnOrAfter d := by
  simp only [friOnOrAfter, nextOnOrAfter]
  omega

theorem friOnOrAfter_least {d e : Nat} (he : e % 7 = 4) (h : d ≤ e) :
    friOnOrAfter d ≤ e := by
  simp only [friOnOrAfter, nextOnOrAfter]
  omega

theorem mem_labelSeq_seven {a b d : Nat} (ha : a % 7 = 4) (hb : b % 7 = 4)
    (hab : a ≤ b) : d ∈ labelSeq a b 7 ↔ d % 7 = 4 ∧ a ≤ d ∧ d ≤ b := by
  simp only [labelSeq, List.mem_map, List.mem_range]
  constructor
  · rintro ⟨k, hk, rfl⟩
    omega
  · rintro ⟨hd, had, hdb⟩
    exact ⟨(d - a) / 7, by omega, by omega⟩

theorem monthEndOnOrAfter_mod (d : Nat) : monthEndOnOrAfter d % 30 = 29 := by
  simp only [monthEndOnOrAfter, nextOnOrAfter]
  omega

theorem monthEndOnOrAfter_ge (d : Nat) : d ≤ monthEndOnOrAfter d := by
  simp only [monthEndOnOrAfter, nextOnOrAfter]
  omega

theorem monthEndOnOrAfter_least {d e : Nat} (he : e % 30 = 29) (h : d ≤ e) :
    monthEndOnOrAfter d ≤ e := by
  simp only [monthEndOnOrAfter, nextOnOrAfter]
  omega

theorem mem_labelSeq_thirty {a b d : Nat} (ha : a % 30 = 29) (hb : b % 30 = 29)
    (hab : a ≤ b) : d ∈ labelSeq a b 30 ↔ d % 30 = 29 ∧ a ≤ d ∧ d ≤ b := by
  simp only [labelSeq, List.mem_map, List.mem_range]
  constructor
  · rintro ⟨k, hk, rfl⟩
    omega
  · rintro ⟨hd, had, hdb⟩
    exact ⟨(d - a) / 30, by omega, by omega⟩

/-! ### Helper lemmas about `_clean_price_dataframe` -/

theorem clean_ok_inv {raw : RawTable} {s : String} {t : List CleanRow}
    (h : clean_price_dataframe raw s = .ok t) :
    t = sortOn (·.date) (raw.rows.filterMap (rowClean raw.hasVolumeCol s)) ∧
      raw.rows.isEmpty = false := by
  unfold clean_price_dataframe at h
  by_cases he : raw.rows.isEmpty
  · rw [if_pos he] at h
    cases h
  · rw [if_neg he] at h
    injection h with h
    exact ⟨h.symm, by simpa using he⟩

theorem rowClean_symbol {hv : Bool} {s : String} {rr : RawRow} {r : CleanRow}
    (h : rowClean hv s rr = some r) : r.symbol = s := by
  unfold rowClean at h
  cases ho : rr.openV with
  | none => rw [ho] at h; cases h
  | some o =>
    cases hh : rr.high with
    | none => rw [ho, hh] at h; cases h
    | some hi =>
      cases hl : rr.low with
      | none => rw [ho, hh, hl] at h; cases h
      | some lo =>
        cases hc : rr.close with
        | none => rw [ho, hh, hl, hc] at h; cases h
        | some c =>
          rw [ho, hh, hl, hc] at h
          injection h with h
          rw [← h]

theorem clean_ok_symbol {raw : RawTable} {s : String} {t : List CleanRow}
    (h : clean_price_dataframe raw s = .ok t) : ∀ r ∈ t, r.symbol = s := by
  obtain ⟨ht, -⟩ := clean_ok_inv h
  subst ht
  intro r hr
  have hperm := sortOn_perm (fun r : CleanRow => r.date)
    (raw.rows.filterMap (rowClean raw.hasVolumeCol s))
  have hr' := hperm.mem_iff.mp hr
  obtain ⟨rr, -, hrr⟩ := List.mem_filterMap.mp hr'
  exact rowClean_symbol hrr

theorem clean_ok_sorted {raw : RawTable} {s : String} {t : List CleanRow}
    (h : clean_price_dataframe raw s = .ok t) :
    (t.map (·.date)).Pairwise (· ≤ ·) := by
  obtain ⟨ht, -⟩ := clean_ok_inv h
  subst ht
  exact List.pairwise_map.mpr (sortOn_sorted (fun r : CleanRow => r.date)
    (raw.rows.filterMap (rowClean raw.hasVolumeCol s)))

theorem rowClean_cleanToRawRow {s : String} {r : CleanRow} (hs : r.symbol = s) :
    rowClean true s (cleanToRawRow r) = some r := by
  obtain ⟨d, o, hi, lo, c, v, sym⟩ := r
  simp only [CleanRow.symbol] at hs
  subst hs
  simp [rowClean, cleanToRawRow, Int.floor_intCast]

theorem filterMap_rowClean_cleanToRaw {s : String} {t : List CleanRow}
    (hs : ∀ r ∈ t, r.symbol = s) :
    (t.map cleanToRawRow).filterMap (rowClean true s) = t := by
  induction t with
  | nil => rfl
  | cons r rest ih =>
    have h1 : rowClean true s (cleanToRawRow r) = some r :=
      rowClean_cleanToRawRow (hs r (List.mem_cons_self r rest))
    simp only [List.map_cons, List.filterMap_cons, h1]
    rw [ih fun x hx => hs x (List.mem_cons_of_mem r hx)]

/-! ### C7: configuration validation -/

/-- C7 (corrected), counterexample: constructing a `RotationConfig` with an
unsupported rebalance mode and a negative lookback succeeds (the dataclass
performs no validation, so no `ConfigError` exists at construction time);
the unsupported mode only raises in the middle of `generate_signals`, and a
non-positive lookback raises nothing at all. -/
theorem config_no_construction_validation_counterexample :
    ({ lookback_days := -3, rebalance := "hourly" } : RotationConfig).rebalance
        = "hourly"
    ∧ generateSignalsAligned [(0, 1, 1)]
        { lookback_days := -3, rebalance := "hourly" }
        = .error "Unsupported rebalance mode: hourly"
    ∧ (generateSignalsAligned [(0, 1, 1)]
        { lookback_days := 0, rebalance := "daily" }).isOk = true := by
  exact ⟨rfl, rfl, rfl⟩

/-- C7 (amended): `RotationConfig` construction never fails; the only error
in signal computation is the unsupported-rebalance `ValueError`, raised
mid-computation, and it depends only on the rebalance mode — a non-positive
`lookback_days` never raises. -/
theorem config_validation_characterization (P : List (Nat × ℚ × ℚ))
    (cfg : RotationConfig) :
    (∃ out, generateSignalsAligned P cfg = .ok out) ↔
      (cfg.rebalance = "daily" ∨ cfg.rebalance = "weekly"
        ∨ cfg.rebalance = "monthly") := by
  unfold generateSignalsAligned rebalance_index
  by_cases h1 : cfg.rebalance = "daily" <;>
    by_cases h2 : cfg.rebalance = "weekly" <;>
      by_cases h3 : cfg.rebalance = "monthly" <;>
        simp [h1, h2, h3]

/-! ### C8: normalization sorts but does not deduplicate -/

/-- C8 (corrected), counterexample: two raw rows carrying the same date
both survive normalization, so the output dates are not unique. -/
theorem normalize_dedup_counterexample :
    clean_price_dataframe
        ⟨[⟨5, some 1, some 2, some 1, some 2, some 10⟩,
          ⟨5, some 9, some 9, some 9, some 9, some 1⟩], true⟩ "GC=F"
      = .ok [⟨5, 1, 2, 1, 2, some 10, "GC=F"⟩, ⟨5, 9, 9, 9, 9, some 1, "GC=F"⟩] := by
  rfl

/-- C8 (amended): the normalized series is sorted ascending by date, and it
contains exactly the rows whose open/high/low/close all parse — no
deduplication is performed, so duplicate dates survive. -/
theorem normalize_sorted_no_dedup (raw : RawTable) (s : String)
    (t : List CleanRow) (h : clean_price_dataframe raw s = .ok t) :
    (t.map (·.date)).Pairwise (· ≤ ·) ∧
      t.Perm (raw.rows.filterMap (rowClean raw.hasVolumeCol s)) := by
  refine ⟨clean_ok_sorted h, ?_⟩
  obtain ⟨ht, -⟩ := clean_ok_inv h
  subst ht
  exact sortOn_perm _ _

/-- Witness for `normalize_sorted_no_dedup` at a concrete raw frame. -/
theorem normalize_sorted_no_dedup_witness :
    clean_price_dataframe
        ⟨[⟨7, some 1, some 1, some 1, some 1, none⟩,
          ⟨3, some 2, some 2, some 2, some 2, some 5⟩], true⟩ "X"
      = .ok [⟨3, 2, 2, 2, 2, some 5, "X"⟩, ⟨7, 1, 1, 1, 1, none, "X"⟩]
    ∧ (([⟨3, 2, 2, 2, 2, some 5, "X"⟩, ⟨7, 1, 1, 1, 1, none, "X"⟩] :
          List CleanRow).map (·.date)).Pairwise (· ≤ ·)
    ∧ ([⟨3, 2, 2, 2, 2, some 5, "X"⟩, ⟨7, 1, 1, 1, 1, none, "X"⟩] :
          List CleanRow).Perm
        ((⟨[⟨7, some 1, some 1, some 1, some 1, none⟩,
            ⟨3, some 2, some 2, some 2, some 2, some 5⟩], true⟩ :
            RawTable).rows.filterMap (rowClean true "X")) :=
  ⟨rfl,
   (normalize_sorted_no_dedup
      ⟨[⟨7, some 1, some 1, some 1, some 1, none⟩,
        ⟨3, some 2, some 2, some 2, some 2, some 5⟩], true⟩ "X"
      [⟨3, 2, 2, 2, 2, some 5, "X"⟩, ⟨7, 1, 1, 1, 1, none, "X"⟩] rfl).1,
   (normalize_sorted_no_dedup
      ⟨[⟨7, some 1, some 1, some 1, some 1, none⟩,
        ⟨3, some 2, some 2, some 2, some 2, some 5⟩], true⟩ "X"
      [⟨3, 2, 2, 2, 2, some 5, "X"⟩, ⟨7, 1, 1, 1, 1, none, "X"⟩] rfl).2⟩

/-! ### C9: normalization idempotence -/

/-- C9 (corrected), counterexample: a raw frame whose single row has an
unparseable close normalizes successfully to an empty series, but
normalizing that output again raises the empty-frame `ValueError` — so
normalization is not idempotent on every input on which it succeeds. -/
theorem normalize_idempotent_counterexample :
    clean_price_dataframe ⟨[⟨1, some 1, some 1, some 1, none, none⟩], true⟩ "GC=F"
        = .ok []
    ∧ clean_price_dataframe (cleanToRaw []) "GC=F"
        = .error (.emptyData "GC=F") := by
  exact ⟨rfl, rfl⟩

/-- C9 (amended): on every raw table whose normalization succeeds with a
non-empty output whose dates are pairwise distinct, normalizing the output
again is a no-op.  (Re-sorting a strictly date-sorted frame is the
identity for any sort algorithm, so this much holds of the real code; with
duplicate surviving dates — possible, since nothing deduplicates — the
relative order of equal-date rows under pandas' unstable default sort is
unspecified, so byte-identity is not guaranteed there and is not claimed;
with an empty output, renormalization raises instead.) -/
theorem normalize_idempotent_on_nonempty (raw : RawTable) (s : String)
    (t : List CleanRow) (h : clean_price_dataframe raw s = .ok t)
    (hne : t ≠ []) (huniq : (t.map (·.date)).Pairwise (· < ·)) :
    clean_price_dataframe (cleanToRaw t) s = .ok t := by
  have hsym := clean_ok_symbol h
  have hsorted : (t.map (·.date)).Pairwise (· ≤ ·) := huniq.imp le_of_lt
  have hmapne : (t.map cleanToRawRow).isEmpty = false := by
    cases t with
    | nil => cases hne rfl
    | cons a l => rfl
  unfold clean_price_dataframe cleanToRaw
  simp only [hmapne, Bool.false_eq_true, if_false]
  rw [filterMap_rowClean_cleanToRaw hsym]
  rw [sortOn_eq_self (List.pairwise_map.mp hsorted)]

/-- Witness for `normalize_idempotent_on_nonempty` at a concrete raw
frame. -/
theorem normalize_idempotent_on_nonempty_witness :
    clean_price_dataframe ⟨[⟨4, some 1, some 2, some 1, some 2, some 3⟩], false⟩ "G"
        = .ok [⟨4, 1, 2, 1, 2, some 0, "G"⟩]
    ∧ clean_price_dataframe (cleanToRaw [⟨4, 1, 2, 1, 2, some 0, "G"⟩]) "G"
        = .ok [⟨4, 1, 2, 1, 2, some 0, "G"⟩] :=
  ⟨rfl,
   normalize_idempotent_on_nonempty
     ⟨[⟨4, some 1, some 2, some 1, some 2, some 3⟩], false⟩ "G"
     [⟨4, 1, 2, 1, 2, some 0, "G"⟩] rfl (by decide) (by decide)⟩

/-! ### C3: alignment policy -/

/-- C3 (corrected), counterexample: on a gold series with dates `{0, 1}`
and an equity series with dates `{0}`, the engine's aligned table is the
inner join `[(0, 1, 3)]`, not the union-with-forward-fill table
`[(0, 1, 3), (1, 2, 3)]` that the specification claims as the default. -/
theorem alignment_policy_counterexample :
    prepare_prices [(0, 1), (1, 2)] [(0, 3)] = [(0, 1, 3)]
    ∧ prepare_prices_union_ffill [(0, 1), (1, 2)] [(0, 3)]
        = [(0, 1, 3), (1, 2, 3)]
    ∧ prepare_prices [(0, 1), (1, 2)] [(0, 3)]
        ≠ prepare_prices_union_ffill [(0, 1), (1, 2)] [(0, 3)] := by
  refine ⟨rfl, rfl, by decide⟩

/-- C3 (amended): `generate_signals` always aligns by inner join — a row
appears in the aligned table exactly when its date carries a close in both
input series — and no forward-fill union mode is exposed. -/
theorem prepare_prices_inner_join (gold equity : List (Nat × ℚ))
    (hg : (gold.map Prod.fst).Pairwise (· < ·))
    (he : (equity.map Prod.fst).Pairwise (· < ·)) (d : Nat) (cg ce : ℚ) :
    (d, cg, ce) ∈ prepare_prices gold equity ↔
      ((d, cg) ∈ gold ∧ (d, ce) ∈ equity) := by
  unfold prepare_prices
  have hperm := sortOn_perm (fun p : Nat × ℚ × ℚ => p.1)
    (gold.filterMap fun p => (alookup equity p.1).map fun ce => (p.1, p.2, ce))
  rw [hperm.mem_iff]
  rw [List.mem_filterMap]
  constructor
  · rintro ⟨⟨d0, cg0⟩, hmem, hf⟩
    simp only [Option.map_eq_some'] at hf
    obtain ⟨ce0, hce0, heq⟩ := hf
    injection heq with h1 h2
    injection h2 with h2 h3
    subst h1; subst h2; subst h3
    exact ⟨hmem, alookup_mem hce0⟩
  · rintro ⟨hgm, hem⟩
    refine ⟨(d, cg), hgm, ?_⟩
    rw [alookup_of_mem (pairwise_ne_of_lt he) hem]
    rfl

/-- Witness for `prepare_prices_inner_join` at the counterexample input. -/
theorem prepare_prices_inner_join_witness :
    ((0, (1 : ℚ), (3 : ℚ)) ∈ prepare_prices [(0, 1), (1, 2)] [(0, 3)]) ∧
      ¬((1, (2 : ℚ), (3 : ℚ)) ∈ prepare_prices [(0, 1), (1, 2)] [(0, 3)]) :=
  ⟨(prepare_prices_inner_join [(0, 1), (1, 2)] [(0, 3)] (by decide) (by decide)
      0 1 3).mpr ⟨by decide, by decide⟩,
   fun hmem => by
     have h2 := ((prepare_prices_inner_join [(0, 1), (1, 2)] [(0, 3)] (by decide)
        (by decide) 1 2 3).mp hmem).2
     simp at h2⟩

/-! ### C6: gold-fetch exhaustion -/

/-- C6 (corrected), counterexample: with caching disabled, a call in which
every provider yields no data raises the terminal error even though a cache
file exists whose restriction to the requested range is non-empty — the
last-resort cache reuse is gated on the `use_cache` flag, contradicting the
claim's unconditional "if a cache file exists". -/
theorem gold_fetch_exhaustion_counterexample :
    fetch_gold_from_akshare goldExhaustEnv 0 none = none
    ∧ fetch_gold_from_stooq goldExhaustEnv 0 none = none
    ∧ (yfLoop goldExhaustEnv.yfAttempts none).1 = none
    ∧ goldExhaustEnv.cache = some goldCacheTable
    ∧ clean_price_dataframe goldCacheTable "GC=F"
        = .ok [⟨5, 1, 2, 1, 2, some 10, "GC=F"⟩]
    ∧ filter_date_range [⟨5, 1, 2, 1, 2, some 10, "GC=F"⟩] 0 none ≠ []
    ∧ fetch_gold_futures goldExhaustEnv 0 none false
        = .error (.dataUnavailable (some "rate limited again")) :=
  ⟨rfl, rfl, rfl, rfl, rfl, by decide, rfl⟩

/-- C6 (amended): when every provider in the fallback chain yields no data,
the fetch returns the range-restricted cached series iff caching is enabled,
a cache file exists, it normalizes successfully and the restriction is
non-empty; with an empty restriction, no cache, or caching disabled it
fails with the terminal unavailability error carrying the last observed
yfinance error; a cache file that fails normalization surfaces that
normalization error; no individual provider failure is ever surfaced. -/
theorem gold_fetch_exhaustion (env : GoldFetchEnv) (start : Int)
    (endOpt : Option Int) (useCache : Bool)
    (hak : fetch_gold_from_akshare env start endOpt = none)
    (hst : fetch_gold_from_stooq env start endOpt = none)
    (hyf : (yfLoop env.yfAttempts none).1 = none) :
    fetch_gold_futures env start endOpt useCache =
      match useCache, env.cache with
      | true, some raw =>
        (match clean_price_dataframe raw "GC=F" with
         | .error e => .error e
         | .ok c =>
           if (filter_date_range c start endOpt).isEmpty then
             .error (.dataUnavailable (yfLoop env.yfAttempts none).2)
           else .ok (filter_date_range c start endOpt))
      | _, _ => .error (.dataUnavailable (yfLoop env.yfAttempts none).2) := by
  rcases hy : yfLoop env.yfAttempts none with ⟨o, ex⟩
  have ho : o = none := by rw [hy] at hyf; exact hyf
  subst ho
  cases useCache with
  | false =>
    cases hc : env.cache with
    | none => simp [fetch_gold_futures, hak, hst, hy, hc]
    | some raw => simp [fetch_gold_futures, hak, hst, hy, hc]
  | true =>
    cases hc : env.cache with
    | none => simp [fetch_gold_futures, hak, hst, hy, hc]
    | some raw =>
      cases hcl : clean_price_dataframe raw "GC=F" with
      | error e => simp [fetch_gold_futures, hak, hst, hy, hc, hcl]
      | ok c =>
        by_cases hemp : (filter_date_range c start endOpt).isEmpty
        · simp [fetch_gold_futures, hak, hst, hy, hc, hcl, hemp]
        · simp [fetch_gold_futures, hak, hst, hy, hc, hcl, hemp]

/-- Witness for `gold_fetch_exhaustion`: with caching enabled in the same
exhausted world, the cached restriction is returned. -/
theorem gold_fetch_exhaustion_witness :
    fetch_gold_from_akshare goldExhaustEnv 0 none = none
    ∧ fetch_gold_from_stooq goldExhaustEnv 0 none = none
    ∧ (yfLoop goldExhaustEnv.yfAttempts none).1 = none
    ∧ fetch_gold_futures goldExhaustEnv 0 none true
        = .ok [⟨5, 1, 2, 1, 2, some 10, "GC=F"⟩] :=
  ⟨rfl, rfl, rfl,
   (gold_fetch_exhaustion goldExhaustEnv 0 none true rfl rfl rfl).trans (by rfl)⟩

/-! ### C10: performance summary edge cases -/

theorem listMean_replicate_zero (n : Nat) :
    listMean (List.replicate n (0 : ℝ)) = 0 := by
  simp [listMean]

theorem sampleStd_replicate_zero {n : Nat} (hn : 2 ≤ n) :
    sampleStd (List.replicate n (0 : ℝ)) = some 0 := by
  rw [sampleStd]
  rw [if_neg (by simp; omega)]
  congr 1
  rw [listMean_replicate_zero]
  simp

theorem scanl_cumprod_zeros (n : Nat) (a : ℝ) :
    List.scanl (fun acc r => acc * (1 + r)) a (List.replicate n 0)
      = a :: List.replicate n a := by
  induction n generalizing a with
  | zero => simp
  | succ m ih =>
    rw [List.replicate_succ, List.scanl]
    rw [show a * (1 + 0) = a by ring]
    rw [ih a, List.replicate_succ]

theorem cumprod_replicate_zero (n : Nat) :
    cumprodList (List.replicate n (0 : ℝ)) = List.replicate n 1 := by
  rw [cumprodList, scanl_cumprod_zeros]
  rfl

theorem runMaxAux_one_replicate (m : Nat) :
    runMaxAux (1 : ℝ) (List.replicate m 1) = List.replicate m 1 := by
  induction m with
  | zero => rfl
  | succ k ih =>
    rw [List.replicate_succ, runMaxAux, max_self, ih]

theorem runningMax_replicate_one (n : Nat) :
    runningMax (List.replicate n (1 : ℝ)) = List.replicate n 1 := by
  cases n with
  | zero => rfl
  | succ m =>
    rw [List.replicate_succ, runningMax, runMaxAux_one_replicate]

theorem getLastD_replicate (n : Nat) (x d : ℝ) :
    (List.replicate n x).getLastD d = if n = 0 then d else x := by
  induction n generalizing d with
  | zero => rfl
  | succ m ih =>
    rw [List.replicate_succ, List.getLastD_cons, ih x]
    by_cases hm : m = 0 <;> simp [hm]

theorem zipWith_drawdown_ones (n : Nat) :
    List.zipWith (fun c m => c / m - 1) (List.replicate n (1 : ℝ))
      (List.replicate n 1) = List.replicate n 0 := by
  induction n with
  | zero => rfl
  | succ m ih =>
    rw [List.replicate_succ, List.zipWith_cons_cons, ih]
    rw [show (1 : ℝ) / 1 - 1 = 0 by norm_num]
    rfl

theorem listMin_replicate_zero {n : Nat} (hn : 1 ≤ n) :
    listMin (List.replicate n (0 : ℝ)) = 0 := by
  cases n with
  | zero => omega
  | succ m =>
    rw [List.replicate_succ, listMin]
    induction m with
    | zero => rfl
    | succ k ih =>
      rw [List.replicate_succ, List.foldl_cons, min_self]
      exact ih (by omega)

/-- C10 (confirmed): `performance_summary` returns the empty result on an
empty return series, and on an all-zero return series spanning more than
one day it yields CAGR `0`, annualized volatility `0`, Sharpe `NaN`
(without a division error), max drawdown `0`, and terminal value `1`. -/
theorem performance_summary_edge_cases (returns : List (Nat × ℝ))
    (hz : ∀ p ∈ returns, p.2 = 0) (hn : 2 ≤ returns.length)
    (hspan : (returns.map Prod.fst).headD 0 < (returns.map Prod.fst).getLastD 0) :
    performance_summary [] = none
    ∧ performance_summary returns =
        some { cagr := some 0, vol := some 0, sharpe := none,
               max_drawdown := 0, last_value := 1 } := by
  refine ⟨rfl, ?_⟩
  cases returns with
  | nil => simp at hn
  | cons q rest =>
    have hvals : (q :: rest).map Prod.snd
        = List.replicate (q :: rest).length 0 := by
      refine List.eq_replicate_iff.mpr ⟨by simp, ?_⟩
      intro b hb
      obtain ⟨p, hp, hpb⟩ := List.mem_map.mp hb
      rw [← hpb]
      exact hz p hp
    have hlen : 2 ≤ (q :: rest).length := hn
    have hlenpos : (q :: rest).length ≠ 0 := by simp
    have hdays : (0 : Int) <
        (((q :: rest).map Prod.fst).getLastD 0 : Int)
          - (((q :: rest).map Prod.fst).headD 0 : Int) := by
      omega
    simp only [performance_summary]
    rw [hvals, cumprod_replicate_zero, sampleStd_replicate_zero hlen,
      listMean_replicate_zero, runningMax_replicate_one,
      zipWith_drawdown_ones, getLastD_replicate,
      listMin_replicate_zero (by omega : 1 ≤ (q :: rest).length),
      if_neg hlenpos, if_pos hdays]
    have hyears : (0 : ℝ) <
        (((((q :: rest).map Prod.fst).getLastD 0 : Int)
          - (((q :: rest).map Prod.fst).headD 0 : Int) : Int) : ℝ) / 365.25 := by
      apply div_pos
      · exact_mod_cast hdays
      · norm_num
    rw [if_pos hyears]
    simp [Real.one_rpow]

/-- Witness for `performance_summary_edge_cases` on a concrete two-day
all-zero return series. -/
theorem performance_summary_edge_cases_witness :
    performance_summary [] = none
    ∧ performance_summary [(0, 0), (3, 0)] =
        some { cagr := some 0, vol := some 0, sharpe := none,
               max_drawdown := 0, last_value := 1 } :=
  performance_summary_edge_cases [(0, 0), (3, 0)]
    (by
      intro p hp
      simp only [List.mem_cons, List.mem_singleton] at hp
      rcases hp with rfl | rfl | h
      · rfl
      · rfl
      · simp at h)
    (by decide) (by decide)

/-! ### C2: rebalance scheduling -/

theorem pct_change_length (k : Int) (xs : List ℚ) :
    (pct_change k xs).length = xs.length := by
  simp [pct_change]

theorem momTableOf_map_fst (P : List (Nat × ℚ × ℚ)) (cfg : RotationConfig) :
    (momTableOf P cfg).map Prod.fst = P.map (·.1) := by
  unfold momTableOf
  apply List.map_fst_zip
  rw [List.length_zipWith, pct_change_length, pct_change_length]
  simp

theorem rebalance_index_label (idx : List Nat) (mode : String)
    (rdates : List Nat) (hok : rebalance_index idx mode = .ok rdates) :
    ∀ x ∈ rdates, rebalPred mode x = true := by
  unfold rebalance_index at hok
  by_cases m1 : mode = "daily"
  · rw [if_pos m1] at hok
    injection hok with hok
    intro x hx
    simp [rebalPred, m1]
  · rw [if_neg m1] at hok
    by_cases m2 : mode = "weekly"
    · rw [if_pos m2] at hok
      injection hok with hok
      intro x hx
      rw [← hok] at hx
      simp only [rebalPred, if_neg m1, if_pos m2]
      cases idx with
      | nil => simp at hx
      | cons f rest =>
        cases hlast : (f :: rest).getLast? with
        | none => simp [List.getLast?_eq_none_iff] at hlast
        | some l =>
          rw [hlast] at hx
          simp only [List.head?_cons] at hx
          simp only [labelSeq, List.mem_map, List.mem_range] at hx
          obtain ⟨k, -, rfl⟩ := hx
          have hmod := friOnOrAfter_mod f
          simp only [beq_iff_eq]
          omega
    · rw [if_neg m2] at hok
      by_cases m3 : mode = "monthly"
      · rw [if_pos m3] at hok
        injection hok with hok
        intro x hx
        rw [← hok] at hx
        simp only [rebalPred, if_neg m1, if_neg m2, if_pos m3]
        cases idx with
        | nil => simp at hx
        | cons f rest =>
          cases hlast : (f :: rest).getLast? with
          | none => simp [List.getLast?_eq_none_iff] at hlast
          | some l =>
            rw [hlast] at hx
            simp only [List.head?_cons] at hx
            simp only [labelSeq, List.mem_map, List.mem_range] at hx
            obtain ⟨k, -, rfl⟩ := hx
            have hmod := monthEndOnOrAfter_mod f
            simp only [beq_iff_eq]
            omega
      · rw [if_neg m3] at hok
        cases hok

theorem rebalance_index_complete (idx : List Nat) (mode : String)
    (rdates : List Nat) (hok : rebalance_index idx mode = .ok rdates)
    (hsort : idx.Pairwise (· < ·)) :
    ∀ x ∈ idx, rebalPred mode x = true → x ∈ rdates := by
  unfold rebalance_index at hok
  by_cases m1 : mode = "daily"
  · rw [if_pos m1] at hok
    injection hok with hok
    subst hok
    exact fun x hx _ => hx
  · rw [if_neg m1] at hok
    by_cases m2 : mode = "weekly"
    · rw [if_pos m2] at hok
      injection hok with hok
      subst hok
      intro x hx hpred
      simp only [rebalPred, if_neg m1, if_pos m2, beq_iff_eq] at hpred
      cases idx with
      | nil => cases hx
      | cons f rest =>
        cases hlast : (f :: rest).getLast? with
        | none => simp [List.getLast?_eq_none_iff] at hlast
        | some l =>
          simp only [List.head?_cons]
          have hfx : f ≤ x := sorted_head?_le hsort rfl x hx
          have hxl : x ≤ l := sorted_le_getLast? hsort hlast x hx
          refine (mem_labelSeq_seven (friOnOrAfter_mod f) (friOnOrAfter_mod l)
            (friOnOrAfter_least (friOnOrAfter_mod l)
              (le_trans hfx (le_trans hxl (friOnOrAfter_ge l))))).mpr ?_
          exact ⟨hpred, friOnOrAfter_least hpred hfx,
            le_trans hxl (friOnOrAfter_ge l)⟩
    · rw [if_neg m2] at hok
      by_cases m3 : mode = "monthly"
      · rw [if_pos m3] at hok
        injection hok with hok
        subst hok
        intro x hx hpred
        simp only [rebalPred, if_neg m1, if_neg m2, if_pos m3, beq_iff_eq] at hpred
        cases idx with
        | nil => cases hx
        | cons f rest =>
          cases hlast : (f :: rest).getLast? with
          | none => simp [List.getLast?_eq_none_iff] at hlast
          | some l =>
            simp only [List.head?_cons]
            have hfx : f ≤ x := sorted_head?_le hsort rfl x hx
            have hxl : x ≤ l := sorted_le_getLast? hsort hlast x hx
            refine (mem_labelSeq_thirty (monthEndOnOrAfter_mod f)
              (monthEndOnOrAfter_mod l)
              (monthEndOnOrAfter_least (monthEndOnOrAfter_mod l)
                (le_trans hfx (le_trans hxl (monthEndOnOrAfter_ge l))))).mpr ?_
            exact ⟨hpred, monthEndOnOrAfter_least hpred hfx,
              le_trans hxl (monthEndOnOrAfter_ge l)⟩
      · rw [if_neg m3] at hok
        cases hok

/-- C2 (corrected), counterexample: on the table with dates `{2, 3}` (day 3
is a Thursday, day 4 the following Friday, lookback 1, weekly rebalance)
the engine's decision set is empty — the resample label 4 is not a trading
date, so `reindex(...).dropna()` discards the week — while the
specification's "last observation on or before each Friday" set is `{3}`,
where momentum is defined. -/
theorem rebalance_schedule_counterexample :
    rebalance_index [2, 3] "weekly" = .ok [4]
    ∧ decisionTable
        (momTableOf [(2, 1, 1), (3, 2, 1)]
          { lookback_days := 1, rebalance := "weekly" }) [4] = []
    ∧ spec_rebalance_dates [2, 3] "weekly" = [3]
    ∧ momTableOf [(2, 1, 1), (3, 2, 1)]
        { lookback_days := 1, rebalance := "weekly" }
        = [(2, none), (3, some (1, 0))] :=
  ⟨rfl, by with_unfolding_all decide, rfl, by with_unfolding_all decide⟩

/-- C2 (amended): the decision dates at which momentum is evaluated are
exactly the trading dates of the table that are themselves resample bin
labels — every date for `"daily"`, the Fridays present in the table for
`"weekly"`, the calendar month-end days present in the table for
`"monthly"` — further restricted to dates with defined momentum; weeks and
months whose label day is not a trading date contribute no decision
date. -/
theorem rebalance_decision_dates (P : List (Nat × ℚ × ℚ))
    (cfg : RotationConfig) (rdates : List Nat)
    (hsort : (P.map (·.1)).Pairwise (· < ·))
    (hok : rebalance_index (P.map (·.1)) cfg.rebalance = .ok rdates)
    (d : Nat) (m : ℚ × ℚ) :
    (d, m) ∈ decisionTable (momTableOf P cfg) rdates ↔
      ((d, some m) ∈ momTableOf P cfg ∧ rebalPred cfg.rebalance d = true) := by
  have hkeys := momTableOf_map_fst P cfg
  have hknodup : ((momTableOf P cfg).map Prod.fst).Pairwise (· ≠ ·) := by
    rw [hkeys]
    exact pairwise_ne_of_lt hsort
  constructor
  · intro hmem
    obtain ⟨r, hr, hf⟩ := List.mem_filterMap.mp hmem
    cases hal : alookup (momTableOf P cfg) r with
    | none => rw [hal] at hf; cases hf
    | some om =>
      rw [hal] at hf
      cases om with
      | none => cases hf
      | some m0 =>
        simp only [Option.some_bind, Option.map_some'] at hf
        injection hf with hf
        injection hf with hf1 hf2
        subst hf1
        subst hf2
        exact ⟨alookup_mem hal, rebalance_index_label _ _ _ hok r hr⟩
  · rintro ⟨hmm, hpredd⟩
    have hal : alookup (momTableOf P cfg) d = some (some m) :=
      alookup_of_mem hknodup hmm
    have hd_idx : d ∈ P.map (·.1) := by
      rw [← hkeys]
      exact List.mem_map_of_mem Prod.fst hmm
    have hd_rdates : d ∈ rdates :=
      rebalance_index_complete _ _ _ hok hsort d hd_idx hpredd
    refine List.mem_filterMap.mpr ⟨d, hd_rdates, ?_⟩
    rw [hal]
    rfl

/-- Witness for `rebalance_decision_dates`: on a table whose dates `4` and
`11` are Fridays, day 11 (defined momentum) is a decision date. -/
theorem rebalance_decision_dates_witness :
    (11, ((1 : ℚ), (0 : ℚ))) ∈
      decisionTable
        (momTableOf [(4, 1, 1), (11, 2, 1)]
          { lookback_days := 1, rebalance := "weekly" }) [4, 11] :=
  (rebalance_decision_dates [(4, 1, 1), (11, 2, 1)]
      { lookback_days := 1, rebalance := "weekly" } [4, 11]
      (by decide) rfl 11 (1, 0)).mpr
    ⟨by with_unfolding_all decide, by decide⟩

/-! ### Positional lemmas for the signal pipeline -/

theorem ffillAux_length {α : Type} (c : Option α) (xs : List (Option α)) :
    (ffillAux c xs).length = xs.length := by
  induction xs generalizing c with
  | nil => rfl
  | cons x rest ih => cases x <;> simp [ffillAux, ih]

theorem dailyRet_length (xs : List ℚ) : (dailyRet xs).length = xs.length := by
  simp [dailyRet, pct_change_length]

theorem signalOf_length (cfg : RotationConfig) (idx : List Nat)
    (picks : List (Nat × String)) : (signalOf cfg idx picks).length = idx.length := by
  simp [signalOf, ffillAux_length]

theorem shift1_length {α : Type} (c : α) (xs : List α) :
    (shift1 c xs).length = xs.length := by
  cases xs with
  | nil => rfl
  | cons x rest => simp [shift1]

theorem sigListOf_length (cfg : RotationConfig) (P : List (Nat × ℚ × ℚ))
    (rdates : List Nat) : (sigListOf cfg P rdates).length = P.length := by
  simp [sigListOf, signalOf_length]

theorem execListOf_length (cfg : RotationConfig) (P : List (Nat × ℚ × ℚ))
    (rdates : List Nat) : (execListOf cfg P rdates).length = P.length := by
  simp [execListOf, shift1_length, sigListOf_length]

theorem portfolio4_getElem? (es : List String) (gs rs fs : List ℚ) (i : Nat) :
    (portfolio4 es gs rs fs)[i]? =
      es[i]?.bind fun e => gs[i]?.bind fun g => rs[i]?.bind fun r =>
        fs[i]?.map fun f =>
          (if e = "GOLD" then 1 else 0) * g
            + (if e = "EQUITY" then 1 else 0) * r - f := by
  induction es generalizing gs rs fs i with
  | nil => simp [portfolio4]
  | cons e es ih =>
    cases gs with
    | nil => simp [portfolio4]
    | cons g gs =>
      cases rs with
      | nil => simp [portfolio4]
      | cons r rs =>
        cases fs with
        | nil => simp [portfolio4]
        | cons f fs =>
          cases i with
          | zero => simp [portfolio4]
          | succ j => simpa [portfolio4] using ih gs rs fs j

theorem zipRecords_getElem? (ds : List Nat) (ss es : List String)
    (gs rs ps : List ℚ) (i : Nat) :
    (zipRecords ds ss es gs rs ps)[i]? =
      ds[i]?.bind fun d => ss[i]?.bind fun s => es[i]?.bind fun e =>
        gs[i]?.bind fun g => rs[i]?.bind fun r => ps[i]?.map fun p =>
          ⟨d, s, e, g, r, p⟩ := by
  induction ds generalizing ss es gs rs ps i with
  | nil => simp [zipRecords]
  | cons d ds ih =>
    cases ss with
    | nil => simp [zipRecords]
    | cons s ss =>
      cases es with
      | nil => simp [zipRecords]
      | cons e es =>
        cases gs with
        | nil => simp [zipRecords]
        | cons g gs =>
          cases rs with
          | nil => simp [zipRecords]
          | cons r rs =>
            cases ps with
            | nil => simp [zipRecords]
            | cons p ps =>
              cases i with
              | zero => simp [zipRecords]
              | succ j => simpa [zipRecords] using ih ss es gs rs ps j

theorem shift1_getElem?_zero {α : Type} (c : α) (x : α) (xs : List α) :
    (shift1 c (x :: xs))[0]? = some c := by
  simp [shift1]

theorem shift1_getElem?_succ {α : Type} (c : α) (xs : List α) (j : Nat) :
    (shift1 c xs)[j + 1]? = if j + 1 < xs.length then xs[j]? else none := by
  cases xs with
  | nil => simp [shift1]
  | cons x rest =>
    simp only [shift1, List.getElem?_cons_succ, List.getElem?_dropLast]
    have hlen : (x :: rest).length - 1 = rest.length := by simp
    rw [hlen]
    by_cases hj : j < rest.length
    · rw [if_pos hj, if_pos (by simpa using Nat.succ_lt_succ hj)]
    · rw [if_neg hj, if_neg (by simp; omega)]

theorem ffillAux_getElem?_some {α : Type} (c : Option α) (xs : List (Option α))
    (i : Nat) (v : α) (h : xs[i]? = some (some v)) :
    (ffillAux c xs)[i]? = some (some v) := by
  induction xs generalizing c i with
  | nil => simp at h
  | cons x rest ih =>
    cases i with
    | zero =>
      simp only [List.getElem?_cons_zero] at h
      injection h with h
      subst h
      simp [ffillAux]
    | succ j =>
      simp only [List.getElem?_cons_zero, List.getElem?_cons_succ] at h
      cases x with
      | some w =>
        simpa [ffillAux] using ih (some w) j h
      | none =>
        simpa [ffillAux] using ih c j h

theorem generateSignalsAligned_inv {P : List (Nat × ℚ × ℚ)}
    {cfg : RotationConfig} {out : List SignalRecord}
    (hout : generateSignalsAligned P cfg = .ok out) :
    ∃ rdates, rebalance_index (P.map (·.1)) cfg.rebalance = .ok rdates ∧
      out = recordsOf cfg P rdates := by
  unfold generateSignalsAligned at hout
  cases hrb : rebalance_index (P.map (·.1)) cfg.rebalance with
  | error e => rw [hrb] at hout; cases hout
  | ok rdates =>
    rw [hrb] at hout
    injection hout with hout
    exact ⟨rdates, rfl, hout.symm⟩

theorem recordsOf_getElem_fields {cfg : RotationConfig}
    {P : List (Nat × ℚ × ℚ)} {rdates : List Nat} {i : Nat} {r : SignalRecord}
    (hr : (recordsOf cfg P rdates)[i]? = some r) :
    (P.map (·.1))[i]? = some r.date
    ∧ (sigListOf cfg P rdates)[i]? = some r.signal
    ∧ (execListOf cfg P rdates)[i]? = some r.position
    ∧ (dailyRet (P.map (·.2.1)))[i]? = some r.gold_ret
    ∧ (dailyRet (P.map (·.2.2)))[i]? = some r.equity_ret
    ∧ (portfolio4 (execListOf cfg P rdates) (dailyRet (P.map (·.2.1)))
        (dailyRet (P.map (·.2.2))) (feeListOf cfg P rdates))[i]?
        = some r.portfolio_ret := by
  unfold recordsOf at hr
  rw [zipRecords_getElem?] at hr
  cases hd : (P.map (·.1))[i]? with
  | none => rw [hd] at hr; cases hr
  | some d =>
    rw [hd] at hr
    cases hs : (sigListOf cfg P rdates)[i]? with
    | none => rw [hs] at hr; cases hr
    | some s =>
      rw [hs] at hr
      cases hx : (execListOf cfg P rdates)[i]? with
      | none => rw [hx] at hr; cases hr
      | some e =>
        rw [hx] at hr
        cases hgr : (dailyRet (P.map (·.2.1)))[i]? with
        | none => rw [hgr] at hr; cases hr
        | some g =>
          rw [hgr] at hr
          cases her : (dailyRet (P.map (·.2.2)))[i]? with
          | none => rw [her] at hr; cases hr
          | some q =>
            rw [her] at hr
            cases hpr : (portfolio4 (execListOf cfg P rdates)
                (dailyRet (P.map (·.2.1))) (dailyRet (P.map (·.2.2)))
                (feeListOf cfg P rdates))[i]? with
            | none => rw [hpr] at hr; cases hr
            | some p =>
              rw [hpr] at hr
              simp only [Option.some_bind, Option.map_some'] at hr
              injection hr with hr
              subst hr
              exact ⟨rfl, rfl, rfl, rfl, rfl, rfl⟩

theorem feeListOf_length (cfg : RotationConfig) (P : List (Nat × ℚ × ℚ))
    (rdates : List Nat) : (feeListOf cfg P rdates).length = P.length := by
  simp [feeListOf, feeList, List.length_zipWith, shift1_length, execListOf_length]

theorem portfolio4_length (es : List String) (gs rs fs : List ℚ) :
    (portfolio4 es gs rs fs).length
      = min (min (min es.length gs.length) rs.length) fs.length := by
  induction es generalizing gs rs fs with
  | nil => simp [portfolio4]
  | cons e es ih =>
    cases gs with
    | nil => simp [portfolio4]
    | cons g gs =>
      cases rs with
      | nil => simp [portfolio4]
      | cons r rs =>
        cases fs with
        | nil => simp [portfolio4]
        | cons f fs =>
          simp only [portfolio4, List.length_cons, ih, Nat.succ_min_succ]

theorem zipRecords_map_position (ds : List Nat) (ss es : List String)
    (gs rs ps : List ℚ) (h1 : ss.length = ds.length) (h2 : es.length = ds.length)
    (h3 : gs.length = ds.length) (h4 : rs.length = ds.length)
    (h5 : ps.length = ds.length) :
    (zipRecords ds ss es gs rs ps).map (·.position) = es := by
  induction ds generalizing ss es gs rs ps with
  | nil =>
    rw [List.length_eq_zero.mp h1, List.length_eq_zero.mp h2,
      List.length_eq_zero.mp h3, List.length_eq_zero.mp h4,
      List.length_eq_zero.mp h5]
    rfl
  | cons d ds ih =>
    cases ss with
    | nil => simp at h1
    | cons s ss =>
      cases es with
      | nil => simp at h2
      | cons e es =>
        cases gs with
        | nil => simp at h3
        | cons g gs =>
          cases rs with
          | nil => simp at h4
          | cons r rs =>
            cases ps with
            | nil => simp at h5
            | cons p ps =>
              simp only [zipRecords, List.map_cons, List.cons.injEq]
              exact ⟨trivial, ih ss es gs rs ps (by simpa using h1)
                (by simpa using h2) (by simpa using h3) (by simpa using h4)
                (by simpa using h5)⟩

theorem recordsOf_map_position (cfg : RotationConfig) (P : List (Nat × ℚ × ℚ))
    (rdates : List Nat) :
    (recordsOf cfg P rdates).map (·.position) = execListOf cfg P rdates := by
  apply zipRecords_map_position
  · simp [sigListOf_length]
  · simp [execListOf_length]
  · simp [dailyRet_length]
  · simp [dailyRet_length]
  · simp [portfolio4_length, execListOf_length, dailyRet_length, feeListOf_length]

theorem portfolio_fee_shape (pos prev : String) (gr er fb : ℚ) :
    (if pos = "GOLD" then 1 else 0) * gr + (if pos = "EQUITY" then 1 else 0) * er
      - (if pos ≠ prev then fb else 0)
    = (if pos = "GOLD" then gr else if pos = "EQUITY" then er else 0)
      - (if pos = prev then 0 else fb) := by
  by_cases h1 : pos = "GOLD" <;> by_cases h2 : pos = "EQUITY" <;>
    by_cases h3 : pos = prev <;> simp_all <;> ring

/-! ### C5: fee accrual -/

/-- C5 (confirmed): on every day, `portfolio_ret` is the allocated asset's
daily return minus exactly `fee_bps/10000` if and only if the executed
position differs from the previous day's executed position (the first day
compares against the cash state); a direct switch is one fee unit, and an
unchanged position contributes no fee. -/
theorem fee_accrual (P : List (Nat × ℚ × ℚ)) (cfg : RotationConfig)
    (out : List SignalRecord) (hout : generateSignalsAligned P cfg = .ok out)
    (i : Nat) (r : SignalRecord) (hr : out[i]? = some r) :
    r.portfolio_ret =
      (if r.position = "GOLD" then r.gold_ret
       else if r.position = "EQUITY" then r.equity_ret else 0)
      - (if r.position = (if i = 0 then cfg.cash_symbol
            else ((out[i - 1]?).map (·.position)).getD cfg.cash_symbol)
         then 0 else cfg.fee_bps / 10000) := by
  obtain ⟨rdates, hrb, hrec⟩ := generateSignalsAligned_inv hout
  subst hrec
  obtain ⟨hd, hs, hx, hgr, her, hpr⟩ := recordsOf_getElem_fields hr
  rw [portfolio4_getElem?, hx, hgr, her] at hpr
  cases hf : (feeListOf cfg P rdates)[i]? with
  | none =>
    rw [hf] at hpr
    cases hpr
  | some f =>
    rw [hf] at hpr
    simp only [Option.some_bind, Option.map_some'] at hpr
    injection hpr with hpr
    unfold feeListOf feeList at hf
    rw [List.getElem?_zipWith, hx] at hf
    have hilt : i < (execListOf cfg P rdates).length := by
      by_contra hle
      rw [List.getElem?_eq_none (by omega)] at hx
      cases hx
    cases i with
    | zero =>
      cases hexe : execListOf cfg P rdates with
      | nil => rw [hexe] at hx; cases hx
      | cons e0 es0 =>
        rw [hexe, shift1_getElem?_zero] at hf
        simp only at hf
        injection hf with hf
        subst hf
        rw [← hpr, if_pos rfl]
        exact portfolio_fee_shape r.position cfg.cash_symbol r.gold_ret
          r.equity_ret (cfg.fee_bps / 10000)
    | succ j =>
      rw [shift1_getElem?_succ, if_pos hilt] at hf
      cases hprev : (execListOf cfg P rdates)[j]? with
      | none =>
        rw [List.getElem?_eq_none_iff] at hprev
        omega
      | some pe =>
        rw [hprev] at hf
        simp only at hf
        injection hf with hf
        subst hf
        rw [← hpr]
        have hoj : ((recordsOf cfg P rdates)[j]?).map (·.position) = some pe := by
          rw [← List.getElem?_map, recordsOf_map_position]
          exact hprev
        rw [if_neg (Nat.succ_ne_zero j), Nat.succ_sub_one, hoj]
        simp only [Option.getD_some]
        exact portfolio_fee_shape r.position pe r.gold_ret r.equity_ret
          (cfg.fee_bps / 10000)

/-- Witness for `fee_accrual`: on day 2 of a concrete daily-rebalance run
the position switches from cash into GOLD and exactly one
`fee_bps/10000 = 1/2000` is subtracted from the gold return `1/2`. -/
theorem fee_accrual_witness :
    generateSignalsAligned [(0, 1, 1), (1, 2, 1), (2, 3, 1)]
        { lookback_days := 1, rebalance := "daily" }
      = .ok [⟨0, "CASH", "CASH", 0, 0, 0⟩, ⟨1, "GOLD", "CASH", 1, 0, 0⟩,
             ⟨2, "GOLD", "GOLD", 1 / 2, 0, 999 / 2000⟩]
    ∧ (⟨2, "GOLD", "GOLD", 1 / 2, 0, 999 / 2000⟩ : SignalRecord).portfolio_ret =
        (if (⟨2, "GOLD", "GOLD", 1 / 2, 0, 999 / 2000⟩ : SignalRecord).position = "GOLD"
         then (⟨2, "GOLD", "GOLD", 1 / 2, 0, 999 / 2000⟩ : SignalRecord).gold_ret
         else if (⟨2, "GOLD", "GOLD", 1 / 2, 0, 999 / 2000⟩ : SignalRecord).position = "EQUITY"
         then (⟨2, "GOLD", "GOLD", 1 / 2, 0, 999 / 2000⟩ : SignalRecord).equity_ret else 0)
        - (if (⟨2, "GOLD", "GOLD", 1 / 2, 0, 999 / 2000⟩ : SignalRecord).position =
              (if (2 : Nat) = 0 then
                ({ lookback_days := 1, rebalance := "daily" } : RotationConfig).cash_symbol
               else ((([⟨0, "CASH", "CASH", 0, 0, 0⟩, ⟨1, "GOLD", "CASH", 1, 0, 0⟩,
                   ⟨2, "GOLD", "GOLD", 1 / 2, 0, 999 / 2000⟩] :
                   List SignalRecord)[2 - 1]?).map (·.position)).getD
                 ({ lookback_days := 1, rebalance := "daily" } : RotationConfig).cash_symbol)
           then 0
           else ({ lookback_days := 1, rebalance := "daily" } : RotationConfig).fee_bps / 10000) := by
  have h : generateSignalsAligned [(0, 1, 1), (1, 2, 1), (2, 3, 1)]
      { lookback_days := 1, rebalance := "daily" }
      = .ok [⟨0, "CASH", "CASH", 0, 0, 0⟩, ⟨1, "GOLD", "CASH", 1, 0, 0⟩,
             ⟨2, "GOLD", "GOLD", 1 / 2, 0, 999 / 2000⟩] := by
    with_unfolding_all rfl
  exact ⟨h, fee_accrual [(0, 1, 1), (1, 2, 1), (2, 3, 1)]
    { lookback_days := 1, rebalance := "daily" } _ h 2
    ⟨2, "GOLD", "GOLD", 1 / 2, 0, 999 / 2000⟩ rfl⟩

/-! ### C4: asset selection -/

theorem labelSeq_pairwise (a b step : Nat) (hstep : 0 < step) :
    (labelSeq a b step).Pairwise (· < ·) := by
  unfold labelSeq
  refine List.Pairwise.map _ ?_ (List.pairwise_lt_range _)
  intro i j hij
  exact Nat.add_lt_add_left (mul_lt_mul_of_pos_left hij hstep) a

theorem rebalance_index_sorted {idx : List Nat} {mode : String}
    {rdates : List Nat} (hok : rebalance_index idx mode = .ok rdates)
    (hsort : idx.Pairwise (· < ·)) : rdates.Pairwise (· < ·) := by
  unfold rebalance_index at hok
  by_cases m1 : mode = "daily"
  · rw [if_pos m1] at hok
    injection hok with hok
    subst hok
    exact hsort
  · rw [if_neg m1] at hok
    by_cases m2 : mode = "weekly"
    · rw [if_pos m2] at hok
      injection hok with hok
      subst hok
      cases idx with
      | nil => exact List.Pairwise.nil
      | cons f rest =>
        cases hlast : (f :: rest).getLast? with
        | none => simp [List.getLast?_eq_none_iff] at hlast
        | some l =>
          simp only [List.head?_cons]
          exact labelSeq_pairwise _ _ 7 (by omega)
    · rw [if_neg m2] at hok
      by_cases m3 : mode = "monthly"
      · rw [if_pos m3] at hok
        injection hok with hok
        subst hok
        cases idx with
        | nil => exact List.Pairwise.nil
        | cons f rest =>
          cases hlast : (f :: rest).getLast? with
          | none => simp [List.getLast?_eq_none_iff] at hlast
          | some l =>
            simp only [List.head?_cons]
            exact labelSeq_pairwise _ _ 30 (by omega)
      · rw [if_neg m3] at hok
        cases hok

theorem decisionTable_keys_sublist (momT : List (Nat × Option (ℚ × ℚ)))
    (rdates : List Nat) :
    ((decisionTable momT rdates).map Prod.fst).Sublist rdates := by
  induction rdates with
  | nil => simp [decisionTable]
  | cons r rest ih =>
    unfold decisionTable at ih ⊢
    rw [List.filterMap_cons]
    cases halo : (alookup momT r).bind fun om => om.map fun m => (r, m) with
    | none => exact ih.cons r
    | some p =>
      have hp1 : p.1 = r := by
        cases ham : alookup momT r with
        | none => rw [ham] at halo; cases halo
        | some om =>
          rw [ham] at halo
          cases om with
          | none => cases halo
          | some m =>
            simp only [Option.some_bind, Option.map_some'] at halo
            injection halo with halo
            rw [← halo]
      rw [List.map_cons, hp1]
      exact ih.cons₂ r

/-- C4 (confirmed): at every decision row (a trading date that is a
rebalance label with defined momentum `(gm, em)`), the recorded selection
is `cash_symbol` when both momenta are `≤ 0`, GOLD when gold's momentum is
greatest or exactly tied (idxmax takes the first column), and EQUITY when
its momentum is strictly greatest. -/
theorem asset_selection (P : List (Nat × ℚ × ℚ)) (cfg : RotationConfig)
    (out : List SignalRecord)
    (hsort : (P.map (·.1)).Pairwise (· < ·))
    (hout : generateSignalsAligned P cfg = .ok out)
    (i : Nat) (r : SignalRecord) (hr : out[i]? = some r) (gm em : ℚ)
    (hmom : (momTableOf P cfg)[i]? = some (r.date, some (gm, em)))
    (hlab : rebalPred cfg.rebalance r.date = true) :
    r.signal = if gm ≤ 0 ∧ em ≤ 0 then cfg.cash_symbol
      else if em ≤ gm then "GOLD" else "EQUITY" := by
  obtain ⟨rdates, hrb, hrec⟩ := generateSignalsAligned_inv hout
  subst hrec
  obtain ⟨hd, hs, -, -, -, -⟩ := recordsOf_getElem_fields hr
  have hkeys := momTableOf_map_fst P cfg
  have hknodup : ((momTableOf P cfg).map Prod.fst).Pairwise (· ≠ ·) := by
    rw [hkeys]
    exact pairwise_ne_of_lt hsort
  have hmm : (r.date, some (gm, em)) ∈ momTableOf P cfg :=
    List.getElem?_mem hmom
  have hal : alookup (momTableOf P cfg) r.date = some (some (gm, em)) :=
    alookup_of_mem hknodup hmm
  have hd_idx : r.date ∈ P.map (·.1) := by
    rw [← hkeys]
    exact List.mem_map_of_mem Prod.fst hmm
  have hd_rdates : r.date ∈ rdates :=
    rebalance_index_complete _ _ _ hrb hsort r.date hd_idx hlab
  have hdec : (r.date, (gm, em)) ∈ decisionTable (momTableOf P cfg) rdates := by
    refine List.mem_filterMap.mpr ⟨r.date, hd_rdates, ?_⟩
    rw [hal]
    rfl
  have hpick : (r.date, pickRow cfg gm em)
      ∈ picksOf cfg (momTableOf P cfg) rdates := by
    unfold picksOf
    exact List.mem_map_of_mem _ hdec
  have hpick_keys : ((picksOf cfg (momTableOf P cfg) rdates).map Prod.fst).Pairwise
      (· ≠ ·) := by
    have hsub := decisionTable_keys_sublist (momTableOf P cfg) rdates
    have hrsorted := rebalance_index_sorted hrb hsort
    have : ((decisionTable (momTableOf P cfg) rdates).map Prod.fst).Pairwise
        (· < ·) := hrsorted.sublist hsub
    unfold picksOf
    rw [List.map_map]
    exact pairwise_ne_of_lt this
  have halp : alookup (picksOf cfg (momTableOf P cfg) rdates) r.date
      = some (pickRow cfg gm em) := alookup_of_mem hpick_keys hpick
  -- the signal at a decision index is the pick itself
  have hsig : (sigListOf cfg P rdates)[i]? = some (pickRow cfg gm em) := by
    unfold sigListOf signalOf
    rw [List.getElem?_map]
    have hraw : ((P.map (·.1)).map fun d =>
        alookup (picksOf cfg (momTableOf P cfg) rdates) d)[i]?
        = some (some (pickRow cfg gm em)) := by
      rw [List.getElem?_map, hd]
      simp only [Option.map_some']
      rw [halp]
    rw [ffillAux_getElem?_some none _ i _ hraw]
    rfl
  rw [hsig] at hs
  injection hs with hs
  rw [← hs]
  unfold pickRow
  by_cases hboth : gm ≤ 0 ∧ em ≤ 0
  · rw [if_pos hboth, if_pos (max_le_iff.mpr hboth)]
  · rw [if_neg hboth, if_neg (fun hmax => hboth (max_le_iff.mp hmax))]

/-- Witness for `asset_selection`: with gold's trailing return at 100% and
equity's at 0% on day 1 of a daily run, the selection is GOLD. -/
theorem asset_selection_witness :
    ((⟨1, "GOLD", "CASH", 1, 0, 0⟩ : SignalRecord).signal
      = if (1 : ℚ) ≤ 0 ∧ (0 : ℚ) ≤ 0 then
          ({ lookback_days := 1, rebalance := "daily" } : RotationConfig).cash_symbol
        else if (0 : ℚ) ≤ 1 then "GOLD" else "EQUITY") :=
  asset_selection [(0, 1, 1), (1, 2, 1), (2, 3, 1)]
    { lookback_days := 1, rebalance := "daily" }
    [⟨0, "CASH", "CASH", 0, 0, 0⟩, ⟨1, "GOLD", "CASH", 1, 0, 0⟩,
     ⟨2, "GOLD", "GOLD", 1 / 2, 0, 999 / 2000⟩]
    (by decide) (by with_unfolding_all rfl) 1 ⟨1, "GOLD", "CASH", 1, 0, 0⟩ rfl
    1 0 (by with_unfolding_all rfl) (by decide)

/-! ### C1: no lookahead -/

theorem forall₂_eq_refl {α : Type} (l : List α) : List.Forall₂ (· = ·) l l := by
  induction l with
  | nil => exact List.Forall₂.nil
  | cons x xs ih => exact List.Forall₂.cons rfl ih

theorem forall₂_map_both {α β γ δ : Type} {R : α → β → Prop} {S : γ → δ → Prop}
    (f : α → γ) (g : β → δ) (h : ∀ a b, R a b → S (f a) (g b)) :
    ∀ {l : List α} {l2 : List β}, List.Forall₂ R l l2 →
      List.Forall₂ S (l.map f) (l2.map g) := by
  intro l l2 hf
  induction hf with
  | nil => exact List.Forall₂.nil
  | cons hab _ ih => exact List.Forall₂.cons (h _ _ hab) ih

theorem momTableOf_length (P : List (Nat × ℚ × ℚ)) (cfg : RotationConfig) :
    (momTableOf P cfg).length = P.length := by
  simp [momTableOf, List.length_zip, List.length_zipWith, pct_change_length]

theorem pct_change_getElem (k : Int) (xs : List ℚ) (j : Nat)
    (h : j < (pct_change k xs).length) :
    (pct_change k xs)[j] =
      if 0 ≤ (j : Int) - k ∧ (j : Int) - k < (xs.length : Int) then
        some (xs.getD j 0 / xs.getD ((j : Int) - k).toNat 0 - 1)
      else none := by
  unfold pct_change
  rw [List.getElem_map, List.getElem_range]

theorem ffillAux_take {α : Type} (m : Nat) (c : Option α)
    (xs ys : List (Option α)) (h : xs.take m = ys.take m) :
    (ffillAux c xs).take m = (ffillAux c ys).take m := by
  induction m generalizing c xs ys with
  | zero => rfl
  | succ k ih =>
    cases xs with
    | nil =>
      cases ys with
      | nil => rfl
      | cons y ys => simp at h
    | cons x xs =>
      cases ys with
      | nil => simp at h
      | cons y ys =>
        rw [List.take_succ_cons, List.take_succ_cons] at h
        injection h with h1 h2
        subst h1
        cases x with
        | some v =>
          simp only [ffillAux, List.take_succ_cons]
          rw [ih (some v) xs ys h2]
        | none =>
          simp only [ffillAux, List.take_succ_cons]
          rw [ih c xs ys h2]

/-- C1 (confirmed): for any two aligned tables with the same dates whose
closes differ at most on row `T`, every executed position (the `position`
column of `generate_signals`) on rows `≤ T` is unchanged — only rows
`T + 1` and later may differ.  Requires a non-negative lookback (the
dataclass accepts negative lookbacks, under which pandas `pct_change`
genuinely looks forward). -/
theorem no_lookahead (cfg : RotationConfig) (P Q : List (Nat × ℚ × ℚ))
    (T i : Nat) (hL : 0 ≤ cfg.lookback_days)
    (hsort : (P.map (·.1)).Pairwise (· < ·))
    (hdates : P.map (·.1) = Q.map (·.1))
    (hoff : ∀ j, j ≠ T → P[j]? = Q[j]?) (hi : i ≤ T) :
    ((generateSignalsAligned P cfg).toOption.bind
        fun out => (out[i]?).map (·.position))
      = ((generateSignalsAligned Q cfg).toOption.bind
        fun out => (out[i]?).map (·.position)) := by
  have hlen : P.length = Q.length := by
    have h0 := congrArg List.length hdates
    simpa using h0
  by_cases hT : T < P.length
  case neg =>
    have hPQ : P = Q := by
      apply List.ext_getElem?
      intro j
      by_cases hjT : j = T
      · subst hjT
        rw [List.getElem?_eq_none (by omega), List.getElem?_eq_none (by omega)]
      · exact hoff j hjT
    rw [hPQ]
  case pos =>
    -- both runs share the same index and rebalance labels
    unfold generateSignalsAligned
    rw [← hdates]
    cases hrb : rebalance_index (P.map (·.1)) cfg.rebalance with
    | error e => rfl
    | ok rdates =>
      simp only [Except.toOption, Option.some_bind]
      rw [← List.getElem?_map, ← List.getElem?_map, recordsOf_map_position,
        recordsOf_map_position]
      -- the date strictly below which nothing changed
      set dT := (P.map (·.1)).getD T 0 with hdT
      have hTlen : T < (P.map (·.1)).length := by simpa using hT
      have hmono : ∀ j, j < P.length →
          ((P.map (·.1)).getD j 0 < dT ↔ j < T) := by
        intro j hj
        have hjlen : j < (P.map (·.1)).length := by simpa using hj
        rw [hdT, List.getD_eq_getElem _ _ hjlen, List.getD_eq_getElem _ _ hTlen]
        constructor
        · intro hlt
          by_contra hge
          rcases Nat.lt_or_ge T j with h1 | h1
          · have := List.pairwise_iff_get.mp hsort ⟨T, hTlen⟩ ⟨j, hjlen⟩ h1
            simp only [List.get_eq_getElem] at this
            omega
          · have hTj : T = j := by omega
            subst hTj
            omega
        · intro hlt
          have := List.pairwise_iff_get.mp hsort ⟨j, hjlen⟩ ⟨T, hTlen⟩ hlt
          simpa using this
      -- closes agree away from T
      have hgold : ∀ m, m ≠ T → (P.map (·.2.1))[m]? = (Q.map (·.2.1))[m]? := by
        intro m hm
        rw [List.getElem?_map, List.getElem?_map, hoff m hm]
      have hequ : ∀ m, m ≠ T → (P.map (·.2.2))[m]? = (Q.map (·.2.2))[m]? := by
        intro m hm
        rw [List.getElem?_map, List.getElem?_map, hoff m hm]
      -- the momentum tables are keywise equal, valuewise equal below dT
      have hmomF : List.Forall₂ (fun p q => p.1 = q.1 ∧
          ((p.2.isSome = q.2.isSome) ∧ (p.1 < dT → p.2 = q.2)))
          (momTableOf P cfg) (momTableOf Q cfg) := by
        rw [List.forall₂_iff_get]
        refine ⟨by rw [momTableOf_length, momTableOf_length, hlen], ?_⟩
        intro j h1 h2
        rw [momTableOf_length] at h1 h2
        simp only [List.get_eq_getElem]
        have hjP : j < (P.map (·.1)).length := by simpa using h1
        have hgP : j < (pct_change cfg.lookback_days (P.map (·.2.1))).length := by
          rw [pct_change_length]; simpa using h1
        have heP : j < (pct_change cfg.lookback_days (P.map (·.2.2))).length := by
          rw [pct_change_length]; simpa using h1
        have hgQ : j < (pct_change cfg.lookback_days (Q.map (·.2.1))).length := by
          rw [pct_change_length]; simpa using h2
        have heQ : j < (pct_change cfg.lookback_days (Q.map (·.2.2))).length := by
          rw [pct_change_length]; simpa using h2
        unfold momTableOf
        rw [List.getElem_zip, List.getElem_zip, List.getElem_zipWith,
          List.getElem_zipWith]
        have hj2 : j < (Q.map (·.1)).length := by simpa using h2
        have hkey : (P.map (·.1))[j] = (Q.map (·.1))[j] := by
          have h0 := congrArg (fun l => l[j]?) hdates
          simp only at h0
          rw [List.getElem?_eq_getElem hjP, List.getElem?_eq_getElem hj2] at h0
          injection h0
        refine ⟨hkey, ?_, ?_⟩
        · -- someness is value-independent
          rw [pct_change_getElem _ _ _ hgP, pct_change_getElem _ _ _ heP,
            pct_change_getElem _ _ _ hgQ, pct_change_getElem _ _ _ heQ]
          have hlg : ((P.map (·.2.1)).length : Int) = ((Q.map (·.2.1)).length : Int) := by
            simp [hlen]
          have hle : ((P.map (·.2.2)).length : Int) = ((Q.map (·.2.2)).length : Int) := by
            simp [hlen]
          rw [hlg, hle]
          by_cases hc1 : 0 ≤ (j : Int) - cfg.lookback_days ∧
              (j : Int) - cfg.lookback_days < ((Q.map (·.2.1)).length : Int)
          · have hc2 : 0 ≤ (j : Int) - cfg.lookback_days ∧
                (j : Int) - cfg.lookback_days < ((Q.map (·.2.2)).length : Int) := by
              simpa using hc1
            rw [if_pos hc1, if_pos hc1, if_pos hc2, if_pos hc2]
            rfl
          · have hc2 : ¬(0 ≤ (j : Int) - cfg.lookback_days ∧
                (j : Int) - cfg.lookback_days < ((Q.map (·.2.2)).length : Int)) := by
              simpa using hc1
            rw [if_neg hc1, if_neg hc1, if_neg hc2, if_neg hc2]
        · -- values agree strictly below dT
          intro hlt
          have hjT : j < T := (hmono j h1).mp (by
            rwa [List.getD_eq_getElem _ _ hjP])
          dsimp only
          rw [pct_change_getElem _ _ _ hgP, pct_change_getElem _ _ _ heP,
            pct_change_getElem _ _ _ hgQ, pct_change_getElem _ _ _ heQ]
          have hlg : ((P.map (·.2.1)).length : Int)
              = ((Q.map (·.2.1)).length : Int) := by simp [hlen]
          have hle2 : ((P.map (·.2.2)).length : Int)
              = ((Q.map (·.2.2)).length : Int) := by simp [hlen]
          rw [hlg, hle2]
          by_cases hc1 : 0 ≤ (j : Int) - cfg.lookback_days ∧
              (j : Int) - cfg.lookback_days < ((Q.map (·.2.1)).length : Int)
          · have hc2 : 0 ≤ (j : Int) - cfg.lookback_days ∧
                (j : Int) - cfg.lookback_days < ((Q.map (·.2.2)).length : Int) := by
              simpa using hc1
            rw [if_pos hc1, if_pos hc1, if_pos hc2, if_pos hc2]
            have hj2 : ((j : Int) - cfg.lookback_days).toNat ≤ j := by omega
            have hgd1 : (P.map (·.2.1)).getD j 0 = (Q.map (·.2.1)).getD j 0 := by
              rw [List.getD_eq_getElem?_getD, List.getD_eq_getElem?_getD,
                hgold j (by omega)]
            have hgd2 : (P.map (·.2.1)).getD ((j : Int) - cfg.lookback_days).toNat 0
                = (Q.map (·.2.1)).getD ((j : Int) - cfg.lookback_days).toNat 0 := by
              rw [List.getD_eq_getElem?_getD, List.getD_eq_getElem?_getD,
                hgold _ (by omega)]
            have hed1 : (P.map (·.2.2)).getD j 0 = (Q.map (·.2.2)).getD j 0 := by
              rw [List.getD_eq_getElem?_getD, List.getD_eq_getElem?_getD,
                hequ j (by omega)]
            have hed2 : (P.map (·.2.2)).getD ((j : Int) - cfg.lookback_days).toNat 0
                = (Q.map (·.2.2)).getD ((j : Int) - cfg.lookback_days).toNat 0 := by
              rw [List.getD_eq_getElem?_getD, List.getD_eq_getElem?_getD,
                hequ _ (by omega)]
            rw [hgd1, hgd2, hed1, hed2]
          · have hc2 : ¬(0 ≤ (j : Int) - cfg.lookback_days ∧
                (j : Int) - cfg.lookback_days < ((Q.map (·.2.2)).length : Int)) := by
              simpa using hc1
            rw [if_neg hc1, if_neg hc1, if_neg hc2, if_neg hc2]
      -- decision rows, hence picks, agree below dT
      have hdecF : List.Forall₂ (fun (x y : Nat × ℚ × ℚ) =>
          x.1 = y.1 ∧ (x.1 < dT → x.2 = y.2))
          (decisionTable (momTableOf P cfg) rdates)
          (decisionTable (momTableOf Q cfg) rdates) := by
        unfold decisionTable
        refine forall₂_filterMap (forall₂_eq_refl rdates) ?_
        · rintro a b rfl
          have hrel := alookup_rel (fun (k : Nat) (om om2 : Option (ℚ × ℚ)) =>
            om.isSome = om2.isSome ∧ (k < dT → om = om2)) a hmomF
          cases hP : alookup (momTableOf P cfg) a with
          | none =>
            cases hQ : alookup (momTableOf Q cfg) a with
            | none => exact Option.Rel.none
            | some om2 => rw [hP, hQ] at hrel; cases hrel
          | some om =>
            cases hQ : alookup (momTableOf Q cfg) a with
            | none => rw [hP, hQ] at hrel; cases hrel
            | some om2 =>
              rw [hP, hQ] at hrel
              cases hrel with
              | some hr =>
                obtain ⟨hsome, himp⟩ := hr
                cases om with
                | none =>
                  cases om2 with
                  | none => exact Option.Rel.none
                  | some m2 => simp at hsome
                | some m =>
                  cases om2 with
                  | none => simp at hsome
                  | some m2 =>
                    simp only [Option.some_bind, Option.map_some']
                    refine Option.Rel.some ⟨rfl, fun hlt => ?_⟩
                    have h3 := himp hlt
                    simp only at h3 ⊢
                    injection h3
      have hpickF : List.Forall₂ (fun (x y : Nat × String) =>
          x.1 = y.1 ∧ (x.1 < dT → x.2 = y.2))
          (picksOf cfg (momTableOf P cfg) rdates)
          (picksOf cfg (momTableOf Q cfg) rdates) := by
        unfold picksOf
        refine forall₂_map_both _ _ ?_ hdecF
        rintro ⟨d1, m1⟩ ⟨d2, m2⟩ ⟨hk, hv⟩
        simp only at hk hv ⊢
        exact ⟨hk, fun hlt => by rw [hv hlt]⟩
      -- daily signals, hence positions, agree up to T
      have hsig_take :
          (sigListOf cfg P rdates).take T = (sigListOf cfg Q rdates).take T := by
        unfold sigListOf signalOf
        rw [← hdates, ← List.map_take, ← List.map_take]
        congr 1
        apply ffillAux_take
        apply List.ext_getElem?
        intro j
        rw [List.getElem?_take, List.getElem?_take]
        by_cases hjT : j < T
        · rw [if_pos hjT, if_pos hjT]
          conv_lhs => rw [List.getElem?_map]
          conv_rhs => rw [List.getElem?_map]
          cases hA : (P.map (·.1))[j]? with
          | none => rfl
          | some d =>
            simp only [Option.map_some']
            congr 1
            have hjn : j < (P.map (·.1)).length := by
              by_contra hge
              rw [List.getElem?_eq_none (by omega)] at hA
              cases hA
            have hdg : d = (P.map (·.1))[j] := by
              rw [List.getElem?_eq_getElem hjn] at hA
              injection hA with hA
              exact hA.symm
            have hklt : d < dT := by
              rw [hdg]
              have hmj := (hmono j (by simpa using hjn)).mpr hjT
              rwa [List.getD_eq_getElem _ _ hjn] at hmj
            have hrel := alookup_rel
              (fun (k : Nat) (s s2 : String) => k < dT → s = s2) d hpickF
            cases hP : alookup (picksOf cfg (momTableOf P cfg) rdates) d with
            | none =>
              cases hQ : alookup (picksOf cfg (momTableOf Q cfg) rdates) d with
              | none => rfl
              | some s2 => rw [hP, hQ] at hrel; cases hrel
            | some s =>
              cases hQ : alookup (picksOf cfg (momTableOf Q cfg) rdates) d with
              | none => rw [hP, hQ] at hrel; cases hrel
              | some s2 =>
                rw [hP, hQ] at hrel
                cases hrel with
                | some hr => rw [hr hklt]
        · rw [if_neg hjT, if_neg hjT]
      -- executed positions agree at every index ≤ T
      have hexec : (execListOf cfg P rdates)[i]? = (execListOf cfg Q rdates)[i]? := by
        unfold execListOf
        cases i with
        | zero =>
          cases hsP : sigListOf cfg P rdates with
          | nil =>
            cases hsQ : sigListOf cfg Q rdates with
            | nil => rfl
            | cons s2 ss2 =>
              have l1 := sigListOf_length cfg P rdates
              have l2 := sigListOf_length cfg Q rdates
              rw [hsP] at l1
              rw [hsQ] at l2
              simp at l1 l2
              omega
          | cons s ss =>
            cases hsQ : sigListOf cfg Q rdates with
            | nil =>
              have l1 := sigListOf_length cfg P rdates
              have l2 := sigListOf_length cfg Q rdates
              rw [hsP] at l1
              rw [hsQ] at l2
              simp at l1 l2
              omega
            | cons s2 ss2 =>
              rw [shift1_getElem?_zero, shift1_getElem?_zero]
        | succ j =>
          rw [shift1_getElem?_succ, shift1_getElem?_succ]
          rw [sigListOf_length, sigListOf_length, hlen]
          by_cases hjn : j + 1 < Q.length
          · rw [if_pos hjn, if_pos hjn]
            have hjT : j < T := by omega
            have h1 := congrArg (fun l => l[j]?) hsig_take
            simp only [List.getElem?_take] at h1
            rwa [if_pos hjT, if_pos hjT] at h1
          · rw [if_neg hjn, if_neg hjn]
      exact hexec

/-- Witness for `no_lookahead`: changing day 2's gold close (from 3 to 30)
leaves the executed position on day 2 unchanged. -/
theorem no_lookahead_witness :
    ((generateSignalsAligned [(0, 1, 1), (1, 2, 1), (2, 3, 1)]
        { lookback_days := 1, rebalance := "daily" }).toOption.bind
      fun out => (out[2]?).map (·.position))
    = ((generateSignalsAligned [(0, 1, 1), (1, 2, 1), (2, 30, 1)]
        { lookback_days := 1, rebalance := "daily" }).toOption.bind
      fun out => (out[2]?).map (·.position)) :=
  no_lookahead { lookback_days := 1, rebalance := "daily" }
    [(0, 1, 1), (1, 2, 1), (2, 3, 1)] [(0, 1, 1), (1, 2, 1), (2, 30, 1)] 2 2
    (by decide) (by decide) (by decide)
    (by
      intro j hj
      match j with
      | 0 => rfl
      | 1 => rfl
      | 2 => exact absurd rfl hj
      | (m + 3) => rfl)
    (by decide)

end VscBacktest
